import Mathlib

/-!
# Verification of the Quacks chip rules engine

Shallow embedding of the chip identity / zone-transition machine
(`state.py`, `actions.py`), the chip behaviour policies
(`chip_policies.py`), the board table (`board.py`), the event-card
hooks and the round/phase driver (`rounds.py`).

Modelling conventions, chosen once and used throughout:

* Chip ids are strings `"color:value#serial"` in the source; they are
  embedded as naturals via the order-preserving enumeration in which
  `build_pool` creates them.  Every claim only needs that chip ids are
  distinct and linearly ordered.
* Python dicts keyed by player id (`bags`, `palms`, `desktops`, `pots`)
  are embedded as total functions `PlayerId → List ChipId` defaulting to
  the empty list: `dict.setdefault(pid, [])` distinguishes an absent key
  from a present-but-empty one only through identity, never through an
  observable read, so the total-map view is observationally faithful.
  The `players` stats dict keeps its partiality (`Option`) because
  `ensure_player` initialises a player record only when the key is
  absent.
* The two dicts `chips` (chip id → type id) and `chip_types`
  (type id → record) are composed into a single `ctype` lookup.
* `random.Random` is embedded as a list of naturals consumed one value
  per call; `rng.randrange(n)` becomes `r % n` (every index below `n`
  is a possible outcome) and `rng.randint(1, 6)` becomes `1 + r % 6`.
* `input()` prompts re-ask until a valid answer arrives, so each prompt
  site is embedded as a typed decision value drawn from the validated
  domain (see `DrawIter`, `TradeChoice`, `Choice1314`).
* `print`/`broadcast` transparency logging carries no game state and is
  not modelled.
* A Python function that can raise returns the state as mutated up to
  the raise point together with an error marker, mirroring exception
  propagation with retained mutations.
-/

namespace Ququ

abbrev ChipId := Nat
abbrev PlayerId := Nat

/-- The closed set of chip colors appearing in `catalog.CHIPS`. -/
inductive Color
  | gray | orange | red | blue | yellow | green | purple | black | greenred
deriving DecidableEq, Repr, Inhabited

/-- One chip denomination: `chip_types[tid]` restricted to the fields the
engine reads (`color`, `value`). -/
structure ChipType where
  color : Color
  value : Int
deriving DecidableEq, Repr, Inhabited

/-- `Zone = Literal["box", "bag", "palm", "desktop", "pot"]` from `state.py`. -/
inductive Zone
  | box | bag | palm | desktop | pot
deriving DecidableEq, Repr, Inhabited

/-- `LocationTD`: zone plus owning player (`None` for the box). -/
structure Location where
  zone : Zone
  player : Option PlayerId
deriving DecidableEq, Repr, Inhabited

/-- `PlayerStateTD` from `state.py`. -/
structure PlayerStateTD where
  coins : Int
  victory_points : Int
  rubies : Int
  droplet_pos : Int
  potion_filled : Bool
deriving DecidableEq, Repr, Inhabited

/-- `EventCardTD` restricted to the fields the engine dispatches on. -/
structure EventCard where
  card_id : String
  color : String
  scope : Option String := none
deriving DecidableEq, Repr, Inhabited

/-- `BoardFieldTD` from `board.py`. -/
structure BoardField where
  coins : Int
  victory_points : Int
  ruby : Bool
deriving DecidableEq, Repr, Inhabited

/-- The per-player tracker dict written into `round_ctx["draw_trackers"]`. -/
structure TrackerTD where
  pos_start : Int
  pos_last : Int
  droplet_pos : Int
  rat_tails : Int
deriving DecidableEq, Repr, Inhabited

/-- The per-player result snapshot recorded by `phase_drawing`. -/
structure DrawResult where
  droplet_pos : Int
  rat_tails : Int
  pos_start : Int
  pos_last : Int
  gray_sum : Int
  chip_sum : Int
  exploded : Bool
  landing_index : Int
  landing_coins : Int
  landing_vp : Int
  landing_ruby : Bool
deriving DecidableEq, Repr, Inhabited

/-- The round-scoped transient workspace `state["round_ctx"]`.  Keys the
driver checks for presence (`gray_limit`, `rat_tails`, `drawing_results`)
are `Option`-valued; keys only ever read through defaults keep the
default directly. -/
structure RoundCtx where
  gray_limit : Option Int := none
  rat_tails : Option (PlayerId → Int) := none
  draw_trackers : PlayerId → Option TrackerTD := fun _ => none
  ev15_first_white_return_used : PlayerId → Bool := fun _ => false
  allow_return_all_from_palm : Bool := false
  drawing_results : Option (PlayerId → Option DrawResult) := none
  dice_results : PlayerId → Option Nat := fun _ => none

/-- `GameStateTD` from `state.py`. -/
structure GameState where
  chips : List ChipId
  ctype : ChipId → ChipType
  box : List ChipId
  bags : PlayerId → List ChipId
  palms : PlayerId → List ChipId
  desktops : PlayerId → List ChipId
  pots : PlayerId → List ChipId
  players : PlayerId → Option PlayerStateTD
  wh : ChipId → Location
  event_deck : List EventCard
  event_discard : List EventCard
  current_event : Option EventCard := none
  active_blue_event : Option EventCard := none
  round_ctx : RoundCtx := {}

/-- Point update of a map keyed by naturals (dict assignment). -/
def upd {α : Type} (f : Nat → α) (k : Nat) (v : α) : Nat → α :=
  fun q => if q = k then v else f q

@[simp] theorem upd_same {α : Type} (f : Nat → α) (k : Nat) (v : α) :
    upd f k v k = v := by simp [upd]

@[simp] theorem upd_ne {α : Type} (f : Nat → α) (k : Nat) (v : α)
    (q : Nat) (h : q ≠ k) : upd f k v q = f q := by simp [upd, h]

/-- Serial loop of `build_pool`: one `ChipType` record per physical chip
of one catalog entry, in creation order. -/
def typesOfInv (c : Color) : List (Int × Nat) → List ChipType
  | [] => []
  | (v, cnt) :: rest => List.replicate cnt ⟨c, v⟩ ++ typesOfInv c rest

/-- Flattening of a whole `chips_def` catalog into the chip creation
sequence of `build_pool`. -/
def chipSeq : List (Color × List (Int × Nat)) → List ChipType
  | [] => []
  | (c, inv) :: rest => typesOfInv c inv ++ chipSeq rest

/-- `state.build_pool`: all chip instances are created into the central
box, `where` maps each to the box, every other container is empty.
Chip ids are the enumeration indices of the creation sequence. -/
def build_pool (df : List (Color × List (Int × Nat))) : GameState :=
  let tys := chipSeq df
  { chips := List.range tys.length
    ctype := fun cid => tys.getD cid default
    box := List.range tys.length
    bags := fun _ => []
    palms := fun _ => []
    desktops := fun _ => []
    pots := fun _ => []
    players := fun _ => none
    wh := fun _ => { zone := Zone.box, player := none }
    event_deck := []
    event_discard := []
    current_event := none
    active_blue_event := none
    round_ctx := {} }

/-- The freshly initialised player record of `ensure_player`. -/
def freshPlayer : PlayerStateTD :=
  { coins := 0, victory_points := 0, rubies := 0, droplet_pos := 0,
    potion_filled := true }

/-- `state.ensure_player`: the container `setdefault`s are the identity
under the total-map view; the stats record is created only if absent. -/
def ensure_player (s : GameState) (pid : PlayerId) : GameState :=
  match s.players pid with
  | some _ => s
  | none => { s with players := upd s.players pid (some freshPlayer) }

/-- Read of `state["players"][pid]` (always preceded by `ensure_player`
in the source). -/
def getPlayer (s : GameState) (pid : PlayerId) : PlayerStateTD :=
  (s.players pid).getD default

/-- In-place mutation of one player's stats record. -/
def modPlayer (s : GameState) (pid : PlayerId)
    (f : PlayerStateTD → PlayerStateTD) : GameState :=
  { s with players := upd s.players pid (some (f (getPlayer s pid))) }

/-- `clear_round_ctx`: `state["round_ctx"].clear()`. -/
def clear_round_ctx (s : GameState) : GameState :=
  { s with round_ctx := {} }

/-- The swap-with-last removal used by both bag draws:
`bag[i] = bag[-1]; bag.pop()`. -/
def swapRemove (l : List ChipId) (i : Nat) : List ChipId :=
  (l.set i (l.getLastD 0)).dropLast

/-- `actions.draw_from_bag`: one uniformly-random chip from the bag into
the pot.  `r` is the raw random value; the drawn index is `r % len(bag)`.
Returns `none` where the source raises `ValueError` on an empty bag. -/
def draw_from_bag (s : GameState) (pid : PlayerId) (r : Nat) :
    GameState × Option ChipId :=
  let s := ensure_player s pid
  let bag := s.bags pid
  if bag.isEmpty then (s, none)
  else
    let i := r % bag.length
    let cid := bag.getD i 0
    ({ s with bags := upd s.bags pid (swapRemove bag i)
              pots := upd s.pots pid (s.pots pid ++ [cid])
              wh := upd s.wh cid ⟨Zone.pot, some pid⟩ }, some cid)

/-- `actions.draw_from_bag_to_palm`: as `draw_from_bag` but into the palm. -/
def draw_from_bag_to_palm (s : GameState) (pid : PlayerId) (r : Nat) :
    GameState × Option ChipId :=
  let s := ensure_player s pid
  let bag := s.bags pid
  if bag.isEmpty then (s, none)
  else
    let i := r % bag.length
    let cid := bag.getD i 0
    ({ s with bags := upd s.bags pid (swapRemove bag i)
              palms := upd s.palms pid (s.palms pid ++ [cid])
              wh := upd s.wh cid ⟨Zone.palm, some pid⟩ }, some cid)

/-- `actions.draw_n_from_bag`: up to `n` single draws, stopping early on
an empty bag; returns the remaining rng stream and the chips in draw
order. -/
def draw_n_from_bag : GameState → PlayerId → Nat → List Nat →
    GameState × List Nat × List ChipId
  | s, _, 0, rng => (s, rng, [])
  | s, pid, n + 1, rng =>
    if (s.bags pid).isEmpty then (s, rng, [])
    else
      match draw_from_bag s pid (rng.headD 0) with
      | (s1, some cid) =>
        let rest := draw_n_from_bag s1 pid n rng.tail
        (rest.1, rest.2.1, cid :: rest.2.2)
      | (s1, none) => (s1, rng.tail, [])

/-- `actions.draw_n_from_bag_to_palm`. -/
def draw_n_from_bag_to_palm : GameState → PlayerId → Nat → List Nat →
    GameState × List Nat × List ChipId
  | s, pid, 0, rng => (ensure_player s pid, rng, [])
  | s, pid, n + 1, rng =>
    let s := ensure_player s pid
    if (s.bags pid).isEmpty then (s, rng, [])
    else
      match draw_from_bag_to_palm s pid (rng.headD 0) with
      | (s1, some cid) =>
        let rest := draw_n_from_bag_to_palm s1 pid n rng.tail
        (rest.1, rest.2.1, cid :: rest.2.2)
      | (s1, none) => (s1, rng.tail, [])

/-- `actions.move_chip_palm_to_pot`; `false` marks the `ValueError`
raised when the chip is not in the palm. -/
def move_chip_palm_to_pot (s : GameState) (pid : PlayerId) (cid : ChipId) :
    GameState × Bool :=
  let s := ensure_player s pid
  if cid ∈ s.palms pid then
    ({ s with palms := upd s.palms pid ((s.palms pid).erase cid)
              pots := upd s.pots pid (s.pots pid ++ [cid])
              wh := upd s.wh cid ⟨Zone.pot, some pid⟩ }, true)
  else (s, false)

/-- `actions.return_chip_palm_to_bag`. -/
def return_chip_palm_to_bag (s : GameState) (pid : PlayerId) (cid : ChipId) :
    GameState × Bool :=
  let s := ensure_player s pid
  if cid ∈ s.palms pid then
    ({ s with palms := upd s.palms pid ((s.palms pid).erase cid)
              bags := upd s.bags pid (s.bags pid ++ [cid])
              wh := upd s.wh cid ⟨Zone.bag, some pid⟩ }, true)
  else (s, false)

/-- `actions.return_all_palm_to_bag`. -/
def return_all_palm_to_bag (s : GameState) (pid : PlayerId) :
    GameState × List ChipId :=
  let s := ensure_player s pid
  let palm := s.palms pid
  if palm.isEmpty then (s, [])
  else
    ({ s with bags := upd s.bags pid (s.bags pid ++ palm)
              palms := upd s.palms pid []
              wh := fun c => if c ∈ palm then ⟨Zone.bag, some pid⟩ else s.wh c },
     palm)

/-- The recurring safety idiom of `rounds.py`:
`if state["palms"][pid]: return_all_palm_to_bag(state, pid)`. -/
def flushPalm (s : GameState) (pid : PlayerId) : GameState :=
  if (s.palms pid).isEmpty then s else (return_all_palm_to_bag s pid).1

/-- `actions.move_chip_palm_to_desktop`. -/
def move_chip_palm_to_desktop (s : GameState) (pid : PlayerId) (cid : ChipId) :
    GameState × Bool :=
  let s := ensure_player s pid
  if cid ∈ s.palms pid then
    ({ s with palms := upd s.palms pid ((s.palms pid).erase cid)
              desktops := upd s.desktops pid (s.desktops pid ++ [cid])
              wh := upd s.wh cid ⟨Zone.desktop, some pid⟩ }, true)
  else (s, false)

/-- `actions.move_chip_desktop_to_bag`. -/
def move_chip_desktop_to_bag (s : GameState) (pid : PlayerId) (cid : ChipId) :
    GameState × Bool :=
  let s := ensure_player s pid
  if cid ∈ s.desktops pid then
    ({ s with desktops := upd s.desktops pid ((s.desktops pid).erase cid)
              bags := upd s.bags pid (s.bags pid ++ [cid])
              wh := upd s.wh cid ⟨Zone.bag, some pid⟩ }, true)
  else (s, false)

/-- `actions.move_chip_desktop_to_pot`. -/
def move_chip_desktop_to_pot (s : GameState) (pid : PlayerId) (cid : ChipId) :
    GameState × Bool :=
  let s := ensure_player s pid
  if cid ∈ s.desktops pid then
    ({ s with desktops := upd s.desktops pid ((s.desktops pid).erase cid)
              pots := upd s.pots pid (s.pots pid ++ [cid])
              wh := upd s.wh cid ⟨Zone.pot, some pid⟩ }, true)
  else (s, false)

/-- `actions.return_chip_from_pot_to_bag`.  Does not touch any position
tracker (those live in `rounds.py` locals). -/
def return_chip_from_pot_to_bag (s : GameState) (pid : PlayerId) (cid : ChipId) :
    GameState × Bool :=
  let s := ensure_player s pid
  if cid ∈ s.pots pid then
    ({ s with pots := upd s.pots pid ((s.pots pid).erase cid)
              bags := upd s.bags pid (s.bags pid ++ [cid])
              wh := upd s.wh cid ⟨Zone.bag, some pid⟩ }, true)
  else (s, false)

/-- `actions.return_all_pot_to_bag`. -/
def return_all_pot_to_bag (s : GameState) (pid : PlayerId) :
    GameState × List ChipId :=
  let s := ensure_player s pid
  let pot := s.pots pid
  if pot.isEmpty then (s, [])
  else
    ({ s with bags := upd s.bags pid (s.bags pid ++ pot)
              pots := upd s.pots pid []
              wh := fun c => if c ∈ pot then ⟨Zone.bag, some pid⟩ else s.wh c },
     pot)

/-- Value contributed by one chip to the gray sum. -/
def chipGray (s : GameState) (cid : ChipId) : Int :=
  if (s.ctype cid).color = Color.gray then (s.ctype cid).value else 0

/-- Value contributed by one chip to the total sum. -/
def chipVal (s : GameState) (cid : ChipId) : Int :=
  (s.ctype cid).value

/-- Gray-value sum over a chip list. -/
def graySumL (s : GameState) (l : List ChipId) : Int :=
  (l.map (chipGray s)).sum

/-- Total-value sum over a chip list. -/
def totalSumL (s : GameState) (l : List ChipId) : Int :=
  (l.map (chipVal s)).sum

/-- `actions.pot_sums`: `(gray_sum, total_sum)` of the player's pot.
The source's single accumulation pass is split into the two sums; its
`ensure_player` call touches no container and no chip type, so the read
is pure. -/
def pot_sums (s : GameState) (pid : PlayerId) : Int × Int :=
  (graySumL s (s.pots pid), totalSumL s (s.pots pid))

/-- `actions.take_any_chip_of_color_from_box_to_bag`: scan the box in
sorted chip-id order, move the first chip of the requested color into
the player's bag; `none` marks the `ValueError` when no chip of that
color is left. -/
def take_any_chip_of_color_from_box_to_bag (s : GameState) (pid : PlayerId)
    (color : Color) : GameState × Option ChipId :=
  let s := ensure_player s pid
  match (s.box.insertionSort (· ≤ ·)).find?
      (fun cid => decide ((s.ctype cid).color = color)) with
  | some cid =>
    ({ s with box := s.box.erase cid
              bags := upd s.bags pid (s.bags pid ++ [cid])
              wh := upd s.wh cid ⟨Zone.bag, some pid⟩ }, some cid)
  | none => (s, none)

/-! ## Basic facts about `ensure_player` -/

theorem ensure_player_chips (s : GameState) (pid : PlayerId) :
    (ensure_player s pid).chips = s.chips := by
  unfold ensure_player; cases s.players pid <;> rfl

theorem ensure_player_ctype (s : GameState) (pid : PlayerId) :
    (ensure_player s pid).ctype = s.ctype := by
  unfold ensure_player; cases s.players pid <;> rfl

theorem ensure_player_box (s : GameState) (pid : PlayerId) :
    (ensure_player s pid).box = s.box := by
  unfold ensure_player; cases s.players pid <;> rfl

theorem ensure_player_bags (s : GameState) (pid : PlayerId) :
    (ensure_player s pid).bags = s.bags := by
  unfold ensure_player; cases s.players pid <;> rfl

theorem ensure_player_palms (s : GameState) (pid : PlayerId) :
    (ensure_player s pid).palms = s.palms := by
  unfold ensure_player; cases s.players pid <;> rfl

theorem ensure_player_desktops (s : GameState) (pid : PlayerId) :
    (ensure_player s pid).desktops = s.desktops := by
  unfold ensure_player; cases s.players pid <;> rfl

theorem ensure_player_pots (s : GameState) (pid : PlayerId) :
    (ensure_player s pid).pots = s.pots := by
  unfold ensure_player; cases s.players pid <;> rfl

theorem ensure_player_wh (s : GameState) (pid : PlayerId) :
    (ensure_player s pid).wh = s.wh := by
  unfold ensure_player; cases s.players pid <;> rfl

theorem ensure_player_round_ctx (s : GameState) (pid : PlayerId) :
    (ensure_player s pid).round_ctx = s.round_ctx := by
  unfold ensure_player; cases s.players pid <;> rfl

theorem ensure_player_of_isSome {s : GameState} {pid : PlayerId}
    (h : (s.players pid).isSome) : ensure_player s pid = s := by
  unfold ensure_player
  cases hp : s.players pid with
  | none => rw [hp] at h; simp at h
  | some ps => rfl

theorem ensure_player_isSome (s : GameState) (pid : PlayerId) :
    ((ensure_player s pid).players pid).isSome := by
  unfold ensure_player
  cases hp : s.players pid with
  | none => simp
  | some ps => simp [hp]

theorem ensure_player_idem (s : GameState) (pid : PlayerId) :
    ensure_player (ensure_player s pid) pid = ensure_player s pid :=
  ensure_player_of_isSome (ensure_player_isSome s pid)

/-! ## C10 — `ensure_player` is idempotent and frame-preserving -/

/-- C10: for a player already present, `ensure_player` changes nothing at
all; for a new player it only installs the stats record
`{coins 0, vp 0, rubies 0, droplet 0, potion charged}` and touches no
container map (the containers of a fresh player therefore read as the
empty lists, which is the total-map image of the source's
`setdefault(pid, [])`); the operation is idempotent. -/
theorem C10_ensure_player_frame (s : GameState) (pid : PlayerId) :
    ((s.players pid).isSome → ensure_player s pid = s)
    ∧ (s.players pid = none →
        ensure_player s pid
          = { s with players := upd s.players pid (some freshPlayer) })
    ∧ (ensure_player s pid).bags = s.bags
    ∧ (ensure_player s pid).palms = s.palms
    ∧ (ensure_player s pid).desktops = s.desktops
    ∧ (ensure_player s pid).pots = s.pots
    ∧ ensure_player (ensure_player s pid) pid = ensure_player s pid := by
  refine ⟨fun h => ensure_player_of_isSome h, fun h => ?_,
    ensure_player_bags s pid, ensure_player_palms s pid,
    ensure_player_desktops s pid, ensure_player_pots s pid,
    ensure_player_idem s pid⟩
  unfold ensure_player
  rw [h]

theorem C10_witness :
    ensure_player (ensure_player (build_pool []) 0) 0
        = ensure_player (build_pool []) 0
    ∧ (ensure_player (build_pool []) 0).players 0 = some freshPlayer := by
  constructor
  · exact (C10_ensure_player_frame (ensure_player (build_pool []) 0) 0).1
      (by decide)
  · have h := (C10_ensure_player_frame (build_pool []) 0).2.1 (by decide)
    rw [h]
    simp [upd]

/-! ## Branch characterisations of each action -/

theorem length_swapRemove (l : List ChipId) (i : Nat) :
    (swapRemove l i).length = l.length - 1 := by
  simp [swapRemove]

theorem getD_mem {l : List ChipId} {i : Nat} (h : i < l.length) :
    l.getD i 0 ∈ l := by
  rw [List.getD_eq_getElem l 0 h]
  exact List.getElem_mem h

theorem draw_from_bag_of_empty {s : GameState} {pid : PlayerId}
    (h : s.bags pid = []) (r : Nat) :
    draw_from_bag s pid r = (ensure_player s pid, none) := by
  unfold draw_from_bag
  simp [ensure_player_bags, h]

theorem draw_from_bag_of_ne {s : GameState} {pid : PlayerId} (r : Nat)
    (h : s.bags pid ≠ []) :
    draw_from_bag s pid r =
      ({ ensure_player s pid with
          bags := upd (ensure_player s pid).bags pid
            (swapRemove (s.bags pid) (r % (s.bags pid).length))
          pots := upd (ensure_player s pid).pots pid
            (s.pots pid ++ [(s.bags pid).getD (r % (s.bags pid).length) 0])
          wh := upd (ensure_player s pid).wh
            ((s.bags pid).getD (r % (s.bags pid).length) 0)
            ⟨Zone.pot, some pid⟩ },
        some ((s.bags pid).getD (r % (s.bags pid).length) 0)) := by
  unfold draw_from_bag
  simp [ensure_player_bags, ensure_player_pots, h]

theorem draw_from_bag_to_palm_of_empty {s : GameState} {pid : PlayerId}
    (h : s.bags pid = []) (r : Nat) :
    draw_from_bag_to_palm s pid r = (ensure_player s pid, none) := by
  unfold draw_from_bag_to_palm
  simp [ensure_player_bags, h]

theorem draw_from_bag_to_palm_of_ne {s : GameState} {pid : PlayerId} (r : Nat)
    (h : s.bags pid ≠ []) :
    draw_from_bag_to_palm s pid r =
      ({ ensure_player s pid with
          bags := upd (ensure_player s pid).bags pid
            (swapRemove (s.bags pid) (r % (s.bags pid).length))
          palms := upd (ensure_player s pid).palms pid
            (s.palms pid ++ [(s.bags pid).getD (r % (s.bags pid).length) 0])
          wh := upd (ensure_player s pid).wh
            ((s.bags pid).getD (r % (s.bags pid).length) 0)
            ⟨Zone.palm, some pid⟩ },
        some ((s.bags pid).getD (r % (s.bags pid).length) 0)) := by
  unfold draw_from_bag_to_palm
  simp [ensure_player_bags, ensure_player_palms, h]

/-- C8: with a non-empty bag, a single draw (to pot or to palm) yields a
chip of the bag, shrinks the bag by exactly one, appends the chip to the
destination container and re-points its Location; on an empty bag both
draws fail, return the state unmutated (exactly `ensure_player`, which is
the identity whenever the player exists) and retrying is idempotent. -/
theorem C8_draw_random (s : GameState) (pid : PlayerId) (r : Nat) :
    (s.bags pid ≠ [] →
      (∃ cid, (draw_from_bag s pid r).2 = some cid ∧ cid ∈ s.bags pid
        ∧ ((draw_from_bag s pid r).1.bags pid).length + 1 = (s.bags pid).length
        ∧ (draw_from_bag s pid r).1.pots pid = s.pots pid ++ [cid]
        ∧ (draw_from_bag s pid r).1.wh cid = ⟨Zone.pot, some pid⟩)
      ∧ (∃ cid, (draw_from_bag_to_palm s pid r).2 = some cid ∧ cid ∈ s.bags pid
        ∧ ((draw_from_bag_to_palm s pid r).1.bags pid).length + 1
            = (s.bags pid).length
        ∧ (draw_from_bag_to_palm s pid r).1.palms pid = s.palms pid ++ [cid]
        ∧ (draw_from_bag_to_palm s pid r).1.wh cid = ⟨Zone.palm, some pid⟩))
    ∧ (s.bags pid = [] →
        draw_from_bag s pid r = (ensure_player s pid, none)
        ∧ draw_from_bag_to_palm s pid r = (ensure_player s pid, none)
        ∧ ((s.players pid).isSome → draw_from_bag s pid r = (s, none))
        ∧ draw_from_bag (draw_from_bag s pid r).1 pid r
            = ((draw_from_bag s pid r).1, none)) := by
  constructor
  · intro hne
    have hlen : 0 < (s.bags pid).length := List.length_pos.mpr hne
    have hidx : r % (s.bags pid).length < (s.bags pid).length :=
      Nat.mod_lt _ hlen
    constructor
    · rw [draw_from_bag_of_ne r hne]
      refine ⟨(s.bags pid).getD (r % (s.bags pid).length) 0,
        rfl, getD_mem hidx, ?_, ?_, ?_⟩
      · simp [length_swapRemove, ensure_player_bags]; omega
      · simp
      · simp
    · rw [draw_from_bag_to_palm_of_ne r hne]
      refine ⟨(s.bags pid).getD (r % (s.bags pid).length) 0,
        rfl, getD_mem hidx, ?_, ?_, ?_⟩
      · simp [length_swapRemove, ensure_player_bags]; omega
      · simp
      · simp
  · intro hemp
    have h1 : draw_from_bag s pid r = (ensure_player s pid, none) :=
      draw_from_bag_of_empty hemp r
    have h2 : draw_from_bag_to_palm s pid r = (ensure_player s pid, none) :=
      draw_from_bag_to_palm_of_empty hemp r
    refine ⟨h1, h2, fun hs => ?_, ?_⟩
    · rw [h1, ensure_player_of_isSome hs]
    · rw [h1]
      have hemp2 : (ensure_player s pid).bags pid = [] := by
        rw [ensure_player_bags]; exact hemp
      rw [draw_from_bag_of_empty hemp2 r, ensure_player_idem]

theorem C8_witness :
    ((fun s : GameState => s.bags 0 ≠ [] ∧
        (∃ cid, (draw_from_bag s 0 0).2 = some cid))
      { build_pool [(Color.gray, [(1, 1)])] with bags := upd (fun _ => []) 0 [0] })
    ∧ (build_pool []).bags 0 = []
    ∧ draw_from_bag (build_pool []) 0 0 = (ensure_player (build_pool []) 0, none) := by
  refine ⟨⟨by decide, ?_⟩, rfl, ?_⟩
  · obtain ⟨⟨cid, hc, -⟩, -⟩ :=
      (C8_draw_random
        { build_pool [(Color.gray, [(1, 1)])] with bags := upd (fun _ => []) 0 [0] }
        0 0).1 (by decide)
    exact ⟨cid, hc⟩
  · exact ((C8_draw_random (build_pool []) 0 0).2 rfl).1

/-! ## C6 — deterministic take-from-supply -/

theorem find?_sorted_le {l : List Nat} (hs : List.Sorted (· ≤ ·) l)
    {p : Nat → Bool} {m : Nat} (hf : l.find? p = some m) :
    ∀ x ∈ l, p x = true → m ≤ x := by
  induction l with
  | nil => simp at hf
  | cons a t ih =>
    by_cases hpa : p a = true
    · have : m = a := by
        rw [List.find?_cons_of_pos _ hpa] at hf
        exact (Option.some_inj.mp hf).symm
      subst this
      intro x hx _
      rcases List.mem_cons.mp hx with h | h
      · omega
      · exact (List.sorted_cons.mp hs).1 x h
    · rw [List.find?_cons_of_neg _ hpa] at hf
      intro x hx hpx
      rcases List.mem_cons.mp hx with h | h
      · subst h; exact absurd hpx hpa
      · exact ih (List.sorted_cons.mp hs).2 hf x h hpx

theorem take_spec_some {s : GameState} {pid : PlayerId} {c : Color} {m : ChipId}
    (hm : ((ensure_player s pid).box.insertionSort (· ≤ ·)).find?
        (fun cid => decide (((ensure_player s pid).ctype cid).color = c))
          = some m) :
    take_any_chip_of_color_from_box_to_bag s pid c =
      ({ ensure_player s pid with
          box := (ensure_player s pid).box.erase m
          bags := upd (ensure_player s pid).bags pid
            ((ensure_player s pid).bags pid ++ [m])
          wh := upd (ensure_player s pid).wh m ⟨Zone.bag, some pid⟩ },
        some m) := by
  simp only [take_any_chip_of_color_from_box_to_bag]
  rw [hm]

theorem take_spec_none {s : GameState} {pid : PlayerId} {c : Color}
    (hm : ((ensure_player s pid).box.insertionSort (· ≤ ·)).find?
        (fun cid => decide (((ensure_player s pid).ctype cid).color = c))
          = none) :
    take_any_chip_of_color_from_box_to_bag s pid c
      = (ensure_player s pid, none) := by
  simp only [take_any_chip_of_color_from_box_to_bag]
  rw [hm]

/-- C6: if the supply box holds a chip of the requested color,
`take_any_chip_of_color_from_box_to_bag` moves exactly the lowest-id such
chip into the player's bag and re-points its Location; if none is left it
fails and leaves the box, every container map and the location index
untouched (and the whole state untouched whenever the player exists). -/
theorem C6_take_from_supply (s : GameState) (pid : PlayerId) (c : Color) :
    ((∃ x ∈ s.box, (s.ctype x).color = c) →
      ∃ m, (take_any_chip_of_color_from_box_to_bag s pid c).2 = some m
        ∧ m ∈ s.box ∧ (s.ctype m).color = c
        ∧ (∀ x ∈ s.box, (s.ctype x).color = c → m ≤ x)
        ∧ (take_any_chip_of_color_from_box_to_bag s pid c).1.box = s.box.erase m
        ∧ (take_any_chip_of_color_from_box_to_bag s pid c).1.bags pid
            = s.bags pid ++ [m]
        ∧ (take_any_chip_of_color_from_box_to_bag s pid c).1.wh m
            = ⟨Zone.bag, some pid⟩)
    ∧ ((∀ x ∈ s.box, (s.ctype x).color ≠ c) →
        (take_any_chip_of_color_from_box_to_bag s pid c).2 = none
        ∧ (take_any_chip_of_color_from_box_to_bag s pid c).1.box = s.box
        ∧ (take_any_chip_of_color_from_box_to_bag s pid c).1.bags = s.bags
        ∧ (take_any_chip_of_color_from_box_to_bag s pid c).1.palms = s.palms
        ∧ (take_any_chip_of_color_from_box_to_bag s pid c).1.pots = s.pots
        ∧ (take_any_chip_of_color_from_box_to_bag s pid c).1.wh = s.wh
        ∧ ((s.players pid).isSome →
            take_any_chip_of_color_from_box_to_bag s pid c = (s, none))) := by
  have hctype : (ensure_player s pid).ctype = s.ctype := ensure_player_ctype s pid
  have hbox : (ensure_player s pid).box = s.box := ensure_player_box s pid
  constructor
  · rintro ⟨x, hx, hxc⟩
    set srt := ((ensure_player s pid).box.insertionSort (· ≤ ·)) with hsrt
    have hperm : srt.Perm (ensure_player s pid).box :=
      List.perm_insertionSort _ _
    have hxs : x ∈ srt := by
      rw [hperm.mem_iff, hbox]; exact hx
    have hfind : (srt.find? (fun cid =>
        decide (((ensure_player s pid).ctype cid).color = c))).isSome := by
      cases hcase : srt.find? (fun cid =>
          decide (((ensure_player s pid).ctype cid).color = c)) with
      | some m => rfl
      | none =>
        exfalso
        have := List.find?_eq_none.mp hcase x hxs
        rw [hctype] at this
        simp [hxc] at this
    obtain ⟨m, hm⟩ := Option.isSome_iff_exists.mp hfind
    have hmem : m ∈ srt := List.mem_of_find?_eq_some hm
    have hmc : (s.ctype m).color = c := by
      have := List.find?_some hm
      rw [hctype] at this
      exact of_decide_eq_true this
    have hmin : ∀ y ∈ s.box, (s.ctype y).color = c → m ≤ y := by
      intro y hy hyc
      refine find?_sorted_le (List.sorted_insertionSort _ _) hm y ?_ ?_
      · rw [hperm.mem_iff, hbox]; exact hy
      · rw [hctype]; simp [hyc]
    have hmb : m ∈ s.box := by
      rw [← hbox]
      exact hperm.mem_iff.mp hmem
    have hspec := @take_spec_some s pid c m
      (by rw [← hsrt]; exact hm)
    rw [hspec]
    exact ⟨m, rfl, hmb, hmc, hmin, by rw [hbox], by simp [ensure_player_bags],
      by simp⟩
  · intro hnone
    have hfind : ((ensure_player s pid).box.insertionSort (· ≤ ·)).find?
        (fun cid => decide (((ensure_player s pid).ctype cid).color = c))
          = none := by
      apply List.find?_eq_none.mpr
      intro y hy
      have hyb : y ∈ s.box := by
        rw [← hbox]
        exact (List.perm_insertionSort _ _).mem_iff.mp hy
      rw [hctype]
      simpa using hnone y hyb
    rw [take_spec_none hfind]
    exact ⟨rfl, hbox, ensure_player_bags s pid, ensure_player_palms s pid,
      ensure_player_pots s pid, ensure_player_wh s pid,
      fun hs => by rw [ensure_player_of_isSome hs]⟩

theorem C6_witness :
    (∃ m, (take_any_chip_of_color_from_box_to_bag
        (build_pool [(Color.gray, [(1, 2)])]) 0 Color.gray).2 = some m)
    ∧ (take_any_chip_of_color_from_box_to_bag
        (build_pool [(Color.gray, [(1, 2)])]) 0 Color.purple).2 = none := by
  constructor
  · obtain ⟨m, hm, -⟩ :=
      (C6_take_from_supply (build_pool [(Color.gray, [(1, 2)])]) 0 Color.gray).1
        ⟨0, by decide, by decide⟩
    exact ⟨m, hm⟩
  · exact ((C6_take_from_supply (build_pool [(Color.gray, [(1, 2)])]) 0
      Color.purple).2 (by decide)).1

/-! ## C1 — chip conservation and the unique-location invariant -/

theorem getLastD_eq_getLast {l : List ChipId} (h : l ≠ []) (d : ChipId) :
    l.getLastD d = l.getLast h := by
  induction l generalizing d with
  | nil => exact absurd rfl h
  | cons x xs ih =>
    cases xs with
    | nil => rfl
    | cons y ys =>
      rw [List.getLastD_cons, ih (by simp) x]
      exact (List.getLast_cons (by simp)).symm

theorem swapRemove_count :
    ∀ (l : List ChipId) (i : Nat), i < l.length →
      ∀ a, (swapRemove l i).count a
            + (if l.getD i 0 = a then 1 else 0) = l.count a := by
  intro l
  induction l with
  | nil => intro i hi; simp at hi
  | cons x xs ih =>
    intro i hi a
    cases i with
    | zero =>
      cases xs with
      | nil => simp [swapRemove, List.count_singleton]
      | cons y ys =>
        have hne : (y :: ys) ≠ ([] : List ChipId) := by simp
        have hlast : (x :: y :: ys).getLastD 0 = (y :: ys).getLast hne := by
          rw [List.getLastD_cons]
          exact getLastD_eq_getLast hne x
        have hsplit : List.count a (y :: ys)
            = List.count a ((y :: ys).dropLast)
              + (if (y :: ys).getLast hne = a then 1 else 0) := by
          conv_lhs => rw [← List.dropLast_concat_getLast hne]
          rw [List.count_append]
          simp [List.count_singleton, beq_iff_eq]
        have hsw : swapRemove (x :: y :: ys) 0
            = ((y :: ys).getLast hne) :: (y :: ys).dropLast := by
          unfold swapRemove
          rw [hlast]
          simp [List.dropLast_cons₂]
        rw [hsw, List.getD_cons_zero, List.count_cons, List.count_cons, hsplit]
        simp only [beq_iff_eq]
    | succ i =>
      have hi' : i < xs.length := by
        rw [List.length_cons] at hi
        omega
      have hxs : xs ≠ [] := by
        intro hemp
        rw [hemp] at hi'
        simp at hi'
      have hlast : (x :: xs).getLastD 0 = xs.getLastD 0 := by
        rw [List.getLastD_cons, getLastD_eq_getLast hxs x,
          getLastD_eq_getLast hxs 0]
      have hsetne : xs.set i (xs.getLastD 0) ≠ [] := by
        intro hemp
        have hlen := congrArg List.length hemp
        rw [List.length_set] at hlen
        simp at hlen
        rw [hlen] at hi'
        simp at hi'
      have hstep : swapRemove (x :: xs) (i + 1) = x :: swapRemove xs i := by
        unfold swapRemove
        rw [show (x :: xs).set (i + 1) ((x :: xs).getLastD 0)
            = x :: xs.set i (xs.getLastD 0) by rw [hlast]; rfl]
        rw [List.dropLast_cons_of_ne_nil hsetne]
      rw [hstep]
      have hgd : (x :: xs).getD (i + 1) 0 = xs.getD i 0 := by
        simp [List.getD]
      rw [hgd, List.count_cons, List.count_cons]
      have := ih i hi' a
      omega

/-- The physical container a `Location` denotes (the `where` index's
codomain read back as a container). -/
def containerOf (s : GameState) (loc : Location) : List ChipId :=
  match loc with
  | ⟨Zone.box, _⟩ => s.box
  | ⟨Zone.bag, some p⟩ => s.bags p
  | ⟨Zone.palm, some p⟩ => s.palms p
  | ⟨Zone.desktop, some p⟩ => s.desktops p
  | ⟨Zone.pot, some p⟩ => s.pots p
  | ⟨_, none⟩ => []

/-- Locations the source can actually store in `where`: the box carries
no player, every per-player zone carries one. -/
def GoodLoc : Location → Prop
  | ⟨Zone.box, none⟩ => True
  | ⟨Zone.box, some _⟩ => False
  | ⟨_, some _⟩ => True
  | ⟨_, none⟩ => False

/-- Collapse the player component on the box zone (two box locations
denote the same physical container). -/
def normLoc (loc : Location) : Location :=
  if loc.zone = Zone.box then ⟨Zone.box, none⟩ else loc

theorem normLoc_idem (loc : Location) : normLoc (normLoc loc) = normLoc loc := by
  rcases loc with ⟨z, p⟩
  cases z <;> simp [normLoc]

theorem normLoc_goodLoc (loc : Location) (h : GoodLoc loc) :
    normLoc loc = loc := by
  rcases loc with ⟨z, p⟩
  cases z <;> cases p <;> simp [normLoc, GoodLoc] at h ⊢

theorem containerOf_norm (s : GameState) (loc : Location) :
    containerOf s (normLoc loc) = containerOf s loc := by
  rcases loc with ⟨z, p⟩
  cases z <;> cases p <;> simp [normLoc, containerOf]

/-- The central invariant of the chip pool (`validate_unique_location`):
every chip of the pool occurs exactly once in the container its recorded
Location names, and every chip found in any container is a pool chip
recorded exactly there. -/
structure Inv (s : GameState) : Prop where
  placed : ∀ cid ∈ s.chips, (containerOf s (s.wh cid)).count cid = 1
  inloc : ∀ loc cid, cid ∈ containerOf s loc →
    s.wh cid = normLoc loc ∧ cid ∈ s.chips

theorem Inv.wh_norm {s : GameState} (h : Inv s) {cid : ChipId}
    (hc : cid ∈ s.chips) : normLoc (s.wh cid) = s.wh cid := by
  have hmem : cid ∈ containerOf s (s.wh cid) :=
    List.count_pos_iff.mp (by rw [h.placed cid hc]; omega)
  have := (h.inloc (s.wh cid) cid hmem).1
  conv_lhs => rw [this]
  rw [normLoc_idem, ← this]

theorem Inv.count_zero {s : GameState} (h : Inv s) {loc : Location}
    {cid : ChipId} (hne : s.wh cid ≠ normLoc loc) :
    (containerOf s loc).count cid = 0 := by
  by_contra hpos
  have hmem : cid ∈ containerOf s loc :=
    List.count_pos_iff.mp (Nat.pos_of_ne_zero hpos)
  exact hne (h.inloc loc cid hmem).1

/-- Write one physical container, addressed by Location. -/
def locSet (s : GameState) (loc : Location) (l : List ChipId) : GameState :=
  match loc with
  | ⟨Zone.box, _⟩ => { s with box := l }
  | ⟨Zone.bag, some p⟩ => { s with bags := upd s.bags p l }
  | ⟨Zone.palm, some p⟩ => { s with palms := upd s.palms p l }
  | ⟨Zone.desktop, some p⟩ => { s with desktops := upd s.desktops p l }
  | ⟨Zone.pot, some p⟩ => { s with pots := upd s.pots p l }
  | ⟨_, none⟩ => s

/-- The common shape of every single-chip zone transition: re-point the
`where` entry, overwrite the source container with its reduced form and
append the chip to the destination container. -/
def chipMove (s : GameState) (cid : ChipId) (src dst : Location)
    (newSrc : List ChipId) : GameState :=
  locSet (locSet { s with wh := upd s.wh cid dst } src newSrc) dst
    (containerOf s dst ++ [cid])

theorem locSet_chips (s : GameState) (loc : Location) (l : List ChipId) :
    (locSet s loc l).chips = s.chips := by
  rcases loc with ⟨z, p⟩
  cases z <;> cases p <;> rfl

theorem locSet_ctype (s : GameState) (loc : Location) (l : List ChipId) :
    (locSet s loc l).ctype = s.ctype := by
  rcases loc with ⟨z, p⟩
  cases z <;> cases p <;> rfl

theorem locSet_wh (s : GameState) (loc : Location) (l : List ChipId) :
    (locSet s loc l).wh = s.wh := by
  rcases loc with ⟨z, p⟩
  cases z <;> cases p <;> rfl

theorem locSet_players (s : GameState) (loc : Location) (l : List ChipId) :
    (locSet s loc l).players = s.players := by
  rcases loc with ⟨z, p⟩
  cases z <;> cases p <;> rfl

theorem containerOf_set_wh (s : GameState) (f : ChipId → Location)
    (loc : Location) : containerOf { s with wh := f } loc = containerOf s loc := by
  rcases loc with ⟨z, p⟩
  cases z <;> cases p <;> rfl

theorem containerOf_locSet (s : GameState) (loc loc' : Location)
    (l : List ChipId) (hg : GoodLoc loc) :
    containerOf (locSet s loc l) loc'
      = if normLoc loc' = loc then l else containerOf s loc' := by
  rcases loc with ⟨z, p⟩
  rcases loc' with ⟨z', p'⟩
  cases z <;> rcases p with _ | q <;> (try exact hg.elim) <;>
    cases z' <;> rcases p' with _ | q' <;>
      simp [locSet, containerOf, normLoc, upd, Location.mk.injEq]

theorem chipMove_chips (s : GameState) (cid : ChipId) (src dst : Location)
    (newSrc : List ChipId) : (chipMove s cid src dst newSrc).chips = s.chips := by
  unfold chipMove
  rw [locSet_chips, locSet_chips]

theorem chipMove_ctype (s : GameState) (cid : ChipId) (src dst : Location)
    (newSrc : List ChipId) : (chipMove s cid src dst newSrc).ctype = s.ctype := by
  unfold chipMove
  rw [locSet_ctype, locSet_ctype]

theorem chipMove_wh (s : GameState) (cid : ChipId) (src dst : Location)
    (newSrc : List ChipId) :
    (chipMove s cid src dst newSrc).wh = upd s.wh cid dst := by
  unfold chipMove
  rw [locSet_wh, locSet_wh]

theorem chipMove_containerOf (s : GameState) (cid : ChipId)
    {src dst : Location} (newSrc : List ChipId) (loc' : Location)
    (hgs : GoodLoc src) (hgd : GoodLoc dst) :
    containerOf (chipMove s cid src dst newSrc) loc'
      = if normLoc loc' = dst then containerOf s dst ++ [cid]
        else if normLoc loc' = src then newSrc
        else containerOf s loc' := by
  unfold chipMove
  rw [containerOf_locSet _ _ _ _ hgd]
  by_cases hd : normLoc loc' = dst
  · simp [hd]
  · rw [if_neg hd, if_neg hd, containerOf_locSet _ _ _ _ hgs,
      containerOf_set_wh]

theorem Inv.chipMove_pres {s : GameState} (h : Inv s) {cid : ChipId}
    {src dst : Location} {newSrc : List ChipId}
    (hgs : GoodLoc src) (hgd : GoodLoc dst) (hne : dst ≠ src)
    (hwh : s.wh cid = src)
    (hmem : cid ∈ s.chips)
    (hcnt : ∀ a, a ≠ cid → newSrc.count a = (containerOf s src).count a)
    (hrem : newSrc.count cid + 1 = (containerOf s src).count cid) :
    Inv (chipMove s cid src dst newSrc) := by
  have hsrcn : normLoc src = src := normLoc_goodLoc _ hgs
  have hdstn : normLoc dst = dst := normLoc_goodLoc _ hgd
  have hchips := chipMove_chips s cid src dst newSrc
  have hwh' := chipMove_wh s cid src dst newSrc
  have hcont := fun loc' =>
    @chipMove_containerOf s cid src dst newSrc loc' hgs hgd
  have hdst0 : (containerOf s dst).count cid = 0 := by
    apply h.count_zero
    rw [hwh, hdstn]
    exact fun hc => hne hc.symm
  constructor
  · intro c hc
    rw [hchips] at hc
    by_cases hcc : c = cid
    · subst hcc
      rw [hwh', upd_same, hcont dst, if_pos hdstn]
      rw [List.count_append, hdst0]
      simp
    · rw [hwh', upd_ne _ _ _ _ hcc, hcont (s.wh c)]
      by_cases hd : normLoc (s.wh c) = dst
      · rw [if_pos hd, List.count_append]
        have : containerOf s (s.wh c) = containerOf s dst := by
          rw [← containerOf_norm s (s.wh c), hd]
        have hp := h.placed c hc
        rw [this] at hp
        rw [hp]
        simp [hcc]
      · rw [if_neg hd]
        by_cases hs : normLoc (s.wh c) = src
        · rw [if_pos hs, hcnt c hcc]
          have : containerOf s (s.wh c) = containerOf s src := by
            rw [← containerOf_norm s (s.wh c), hs]
          have hp := h.placed c hc
          rw [this] at hp
          exact hp
        · rw [if_neg hs]
          exact h.placed c hc
  · intro loc' c hmem'
    rw [hcont loc'] at hmem'
    rw [hchips, hwh']
    by_cases hd : normLoc loc' = dst
    · rw [if_pos hd] at hmem'
      rcases List.mem_append.mp hmem' with hin | hin
      · have hold := h.inloc dst c (by rwa [← containerOf_norm s dst, hdstn])
        have hcc : c ≠ cid := by
          intro hcc
          subst hcc
          rw [hwh, hdstn] at hold
          exact hne hold.1.symm
        rw [upd_ne _ _ _ _ hcc]
        refine ⟨?_, hold.2⟩
        rw [hold.1, hdstn, hd]
      · have hcc : c = cid := by simpa using hin
        subst hcc
        rw [upd_same, hd]
        exact ⟨rfl, hmem⟩
    · rw [if_neg hd] at hmem'
      by_cases hs : normLoc loc' = src
      · rw [if_pos hs] at hmem'
        have hcc : c ≠ cid := by
          intro hcc
          subst hcc
          have hone : (containerOf s src).count c = 1 := by
            have hp := h.placed c hmem
            rwa [hwh] at hp
          have : newSrc.count c = 0 := by omega
          rw [List.count_eq_zero] at this
          exact this hmem'
        have hpos : 0 < (containerOf s src).count c := by
          rw [← hcnt c hcc]
          exact List.count_pos_iff.mpr hmem'
        have hold := h.inloc src c (List.count_pos_iff.mp
          (by rwa [← containerOf_norm s src, hsrcn] at hpos))
        rw [upd_ne _ _ _ _ hcc]
        refine ⟨?_, hold.2⟩
        rw [hold.1, hsrcn, hs]
      · rw [if_neg hs] at hmem'
        have hold := h.inloc loc' c hmem'
        have hcc : c ≠ cid := by
          intro hcc
          subst hcc
          rw [hwh] at hold
          exact hs (hold.1.symm.trans hsrcn.symm ▸ hold.1.symm) |>.elim
        rw [upd_ne _ _ _ _ hcc]
        exact hold

theorem containerOf_congr {s s' : GameState}
    (hbox : s'.box = s.box) (hbags : s'.bags = s.bags)
    (hpalms : s'.palms = s.palms) (hdesks : s'.desktops = s.desktops)
    (hpots : s'.pots = s.pots) (loc : Location) :
    containerOf s' loc = containerOf s loc := by
  rcases loc with ⟨z, p⟩
  cases z <;> cases p <;> simp [containerOf, hbox, hbags, hpalms, hdesks, hpots]

theorem Inv.congr {s s' : GameState} (h : Inv s)
    (hchips : s'.chips = s.chips) (hbox : s'.box = s.box)
    (hbags : s'.bags = s.bags) (hpalms : s'.palms = s.palms)
    (hdesks : s'.desktops = s.desktops) (hpots : s'.pots = s.pots)
    (hwh : s'.wh = s.wh) : Inv s' := by
  have hc := containerOf_congr hbox hbags hpalms hdesks hpots
  constructor
  · intro cid hcid
    rw [hchips] at hcid
    rw [hwh, hc]
    exact h.placed cid hcid
  · intro loc cid hmem
    rw [hc] at hmem
    rw [hwh, hchips]
    exact h.inloc loc cid hmem

theorem Inv.ensure {s : GameState} (h : Inv s) (pid : PlayerId) :
    Inv (ensure_player s pid) :=
  h.congr (ensure_player_chips s pid) (ensure_player_box s pid)
    (ensure_player_bags s pid) (ensure_player_palms s pid)
    (ensure_player_desktops s pid) (ensure_player_pots s pid)
    (ensure_player_wh s pid)

/-! ### chipMove equations for each single-chip action -/

theorem draw_from_bag_eq_move {s : GameState} {pid : PlayerId} (r : Nat)
    (h : s.bags pid ≠ []) :
    draw_from_bag s pid r
      = (chipMove (ensure_player s pid)
          ((s.bags pid).getD (r % (s.bags pid).length) 0)
          ⟨Zone.bag, some pid⟩ ⟨Zone.pot, some pid⟩
          (swapRemove (s.bags pid) (r % (s.bags pid).length)),
        some ((s.bags pid).getD (r % (s.bags pid).length) 0)) := by
  unfold draw_from_bag chipMove locSet
  simp [ensure_player_bags, ensure_player_pots, h, containerOf]

theorem draw_from_bag_to_palm_eq_move {s : GameState} {pid : PlayerId} (r : Nat)
    (h : s.bags pid ≠ []) :
    draw_from_bag_to_palm s pid r
      = (chipMove (ensure_player s pid)
          ((s.bags pid).getD (r % (s.bags pid).length) 0)
          ⟨Zone.bag, some pid⟩ ⟨Zone.palm, some pid⟩
          (swapRemove (s.bags pid) (r % (s.bags pid).length)),
        some ((s.bags pid).getD (r % (s.bags pid).length) 0)) := by
  unfold draw_from_bag_to_palm chipMove locSet
  simp [ensure_player_bags, ensure_player_palms, h, containerOf]

theorem move_chip_palm_to_pot_eq {s : GameState} {pid : PlayerId} {cid : ChipId}
    (h : cid ∈ s.palms pid) :
    move_chip_palm_to_pot s pid cid
      = (chipMove (ensure_player s pid) cid ⟨Zone.palm, some pid⟩
          ⟨Zone.pot, some pid⟩ ((s.palms pid).erase cid), true) := by
  unfold move_chip_palm_to_pot chipMove locSet
  simp [ensure_player_palms, ensure_player_pots, h, containerOf]

theorem move_chip_palm_to_pot_of_not_mem {s : GameState} {pid : PlayerId}
    {cid : ChipId} (h : cid ∉ s.palms pid) :
    move_chip_palm_to_pot s pid cid = (ensure_player s pid, false) := by
  unfold move_chip_palm_to_pot
  simp [ensure_player_palms, h]

theorem return_chip_palm_to_bag_eq {s : GameState} {pid : PlayerId} {cid : ChipId}
    (h : cid ∈ s.palms pid) :
    return_chip_palm_to_bag s pid cid
      = (chipMove (ensure_player s pid) cid ⟨Zone.palm, some pid⟩
          ⟨Zone.bag, some pid⟩ ((s.palms pid).erase cid), true) := by
  unfold return_chip_palm_to_bag chipMove locSet
  simp [ensure_player_palms, ensure_player_bags, h, containerOf]

theorem return_chip_palm_to_bag_of_not_mem {s : GameState} {pid : PlayerId}
    {cid : ChipId} (h : cid ∉ s.palms pid) :
    return_chip_palm_to_bag s pid cid = (ensure_player s pid, false) := by
  unfold return_chip_palm_to_bag
  simp [ensure_player_palms, h]

theorem move_chip_palm_to_desktop_eq {s : GameState} {pid : PlayerId}
    {cid : ChipId} (h : cid ∈ s.palms pid) :
    move_chip_palm_to_desktop s pid cid
      = (chipMove (ensure_player s pid) cid ⟨Zone.palm, some pid⟩
          ⟨Zone.desktop, some pid⟩ ((s.palms pid).erase cid), true) := by
  unfold move_chip_palm_to_desktop chipMove locSet
  simp [ensure_player_palms, ensure_player_desktops, h, containerOf]

theorem move_chip_palm_to_desktop_of_not_mem {s : GameState} {pid : PlayerId}
    {cid : ChipId} (h : cid ∉ s.palms pid) :
    move_chip_palm_to_desktop s pid cid = (ensure_player s pid, false) := by
  unfold move_chip_palm_to_desktop
  simp [ensure_player_palms, h]

theorem move_chip_desktop_to_bag_eq {s : GameState} {pid : PlayerId}
    {cid : ChipId} (h : cid ∈ s.desktops pid) :
    move_chip_desktop_to_bag s pid cid
      = (chipMove (ensure_player s pid) cid ⟨Zone.desktop, some pid⟩
          ⟨Zone.bag, some pid⟩ ((s.desktops pid).erase cid), true) := by
  unfold move_chip_desktop_to_bag chipMove locSet
  simp [ensure_player_desktops, ensure_player_bags, h, containerOf]

theorem move_chip_desktop_to_bag_of_not_mem {s : GameState} {pid : PlayerId}
    {cid : ChipId} (h : cid ∉ s.desktops pid) :
    move_chip_desktop_to_bag s pid cid = (ensure_player s pid, false) := by
  unfold move_chip_desktop_to_bag
  simp [ensure_player_desktops, h]

theorem move_chip_desktop_to_pot_eq {s : GameState} {pid : PlayerId}
    {cid : ChipId} (h : cid ∈ s.desktops pid) :
    move_chip_desktop_to_pot s pid cid
      = (chipMove (ensure_player s pid) cid ⟨Zone.desktop, some pid⟩
          ⟨Zone.pot, some pid⟩ ((s.desktops pid).erase cid), true) := by
  unfold move_chip_desktop_to_pot chipMove locSet
  simp [ensure_player_desktops, ensure_player_pots, h, containerOf]

theorem move_chip_desktop_to_pot_of_not_mem {s : GameState} {pid : PlayerId}
    {cid : ChipId} (h : cid ∉ s.desktops pid) :
    move_chip_desktop_to_pot s pid cid = (ensure_player s pid, false) := by
  unfold move_chip_desktop_to_pot
  simp [ensure_player_desktops, h]

theorem return_chip_from_pot_to_bag_eq {s : GameState} {pid : PlayerId}
    {cid : ChipId} (h : cid ∈ s.pots pid) :
    return_chip_from_pot_to_bag s pid cid
      = (chipMove (ensure_player s pid) cid ⟨Zone.pot, some pid⟩
          ⟨Zone.bag, some pid⟩ ((s.pots pid).erase cid), true) := by
  unfold return_chip_from_pot_to_bag chipMove locSet
  simp [ensure_player_pots, ensure_player_bags, h, containerOf]

theorem return_chip_from_pot_to_bag_of_not_mem {s : GameState} {pid : PlayerId}
    {cid : ChipId} (h : cid ∉ s.pots pid) :
    return_chip_from_pot_to_bag s pid cid = (ensure_player s pid, false) := by
  unfold return_chip_from_pot_to_bag
  simp [ensure_player_pots, h]

theorem take_eq_move {s : GameState} {pid : PlayerId} {c : Color} {m : ChipId}
    (hm : ((ensure_player s pid).box.insertionSort (· ≤ ·)).find?
        (fun cid => decide (((ensure_player s pid).ctype cid).color = c))
          = some m) :
    take_any_chip_of_color_from_box_to_bag s pid c
      = (chipMove (ensure_player s pid) m ⟨Zone.box, none⟩
          ⟨Zone.bag, some pid⟩ (s.box.erase m), some m) := by
  simp only [take_any_chip_of_color_from_box_to_bag, chipMove, locSet]
  rw [hm]
  simp [ensure_player_box, ensure_player_bags, containerOf]

/-! ### Invariant preservation, action by action -/

theorem erase_count_rem {l : List ChipId} {cid : ChipId} (hm : cid ∈ l) :
    (l.erase cid).count cid + 1 = l.count cid := by
  rw [List.count_erase_self]
  have := List.count_pos_iff.mpr hm
  omega

theorem Inv.draw_from_bag_pres {s : GameState} (h : Inv s) (pid : PlayerId)
    (r : Nat) : Inv (draw_from_bag s pid r).1 := by
  have ht : Inv (ensure_player s pid) := h.ensure pid
  by_cases hb : s.bags pid = []
  · rw [draw_from_bag_of_empty hb r]
    exact ht
  · rw [draw_from_bag_eq_move r hb]
    have hlen : 0 < (s.bags pid).length := List.length_pos.mpr hb
    have hidx : r % (s.bags pid).length < (s.bags pid).length :=
      Nat.mod_lt _ hlen
    have hmemb : (s.bags pid).getD (r % (s.bags pid).length) 0 ∈ s.bags pid :=
      getD_mem hidx
    have hmemb' : (s.bags pid).getD (r % (s.bags pid).length) 0
        ∈ containerOf (ensure_player s pid) ⟨Zone.bag, some pid⟩ := by
      show _ ∈ (ensure_player s pid).bags pid
      rwa [ensure_player_bags]
    have hold := ht.inloc ⟨Zone.bag, some pid⟩ _ hmemb'
    dsimp only
    refine ht.chipMove_pres ?_ ?_ ?_ ?_ hold.2 ?_ ?_
    · trivial
    · trivial
    · simp
    · rw [hold.1]; simp [normLoc]
    · intro a ha
      have := swapRemove_count (s.bags pid) (r % (s.bags pid).length) hidx a
      rw [if_neg (by intro hx; exact ha hx.symm)] at this
      show (swapRemove (s.bags pid) (r % (s.bags pid).length)).count a
        = ((ensure_player s pid).bags pid).count a
      rw [ensure_player_bags]
      omega
    · have := swapRemove_count (s.bags pid) (r % (s.bags pid).length) hidx
        ((s.bags pid).getD (r % (s.bags pid).length) 0)
      rw [if_pos rfl] at this
      show (swapRemove (s.bags pid) (r % (s.bags pid).length)).count _ + 1
        = ((ensure_player s pid).bags pid).count _
      rw [ensure_player_bags]
      omega

theorem Inv.draw_from_bag_to_palm_pres {s : GameState} (h : Inv s)
    (pid : PlayerId) (r : Nat) : Inv (draw_from_bag_to_palm s pid r).1 := by
  have ht : Inv (ensure_player s pid) := h.ensure pid
  by_cases hb : s.bags pid = []
  · rw [draw_from_bag_to_palm_of_empty hb r]
    exact ht
  · rw [draw_from_bag_to_palm_eq_move r hb]
    have hlen : 0 < (s.bags pid).length := List.length_pos.mpr hb
    have hidx : r % (s.bags pid).length < (s.bags pid).length :=
      Nat.mod_lt _ hlen
    have hmemb : (s.bags pid).getD (r % (s.bags pid).length) 0 ∈ s.bags pid :=
      getD_mem hidx
    have hmemb' : (s.bags pid).getD (r % (s.bags pid).length) 0
        ∈ containerOf (ensure_player s pid) ⟨Zone.bag, some pid⟩ := by
      show _ ∈ (ensure_player s pid).bags pid
      rwa [ensure_player_bags]
    have hold := ht.inloc ⟨Zone.bag, some pid⟩ _ hmemb'
    dsimp only
    refine ht.chipMove_pres ?_ ?_ ?_ ?_ hold.2 ?_ ?_
    · trivial
    · trivial
    · simp
    · rw [hold.1]; simp [normLoc]
    · intro a ha
      have := swapRemove_count (s.bags pid) (r % (s.bags pid).length) hidx a
      rw [if_neg (by intro hx; exact ha hx.symm)] at this
      show (swapRemove (s.bags pid) (r % (s.bags pid).length)).count a
        = ((ensure_player s pid).bags pid).count a
      rw [ensure_player_bags]
      omega
    · have := swapRemove_count (s.bags pid) (r % (s.bags pid).length) hidx
        ((s.bags pid).getD (r % (s.bags pid).length) 0)
      rw [if_pos rfl] at this
      show (swapRemove (s.bags pid) (r % (s.bags pid).length)).count _ + 1
        = ((ensure_player s pid).bags pid).count _
      rw [ensure_player_bags]
      omega

theorem Inv.move_chip_palm_to_pot_pres {s : GameState} (h : Inv s)
    (pid : PlayerId) (cid : ChipId) : Inv (move_chip_palm_to_pot s pid cid).1 := by
  have ht : Inv (ensure_player s pid) := h.ensure pid
  by_cases hm : cid ∈ s.palms pid
  · rw [move_chip_palm_to_pot_eq hm]
    have hm' : cid ∈ containerOf (ensure_player s pid) ⟨Zone.palm, some pid⟩ := by
      show cid ∈ (ensure_player s pid).palms pid
      rwa [ensure_player_palms]
    have hold := ht.inloc ⟨Zone.palm, some pid⟩ cid hm'
    dsimp only
    refine ht.chipMove_pres ?_ ?_ ?_ ?_ hold.2 ?_ ?_
    · trivial
    · trivial
    · simp
    · rw [hold.1]; simp [normLoc]
    · intro a ha
      show ((s.palms pid).erase cid).count a
        = ((ensure_player s pid).palms pid).count a
      rw [ensure_player_palms]
      exact List.count_erase_of_ne ha _
    · show ((s.palms pid).erase cid).count cid + 1
        = ((ensure_player s pid).palms pid).count cid
      rw [ensure_player_palms]
      exact erase_count_rem hm
  · rw [move_chip_palm_to_pot_of_not_mem hm]
    exact ht

theorem Inv.return_chip_palm_to_bag_pres {s : GameState} (h : Inv s)
    (pid : PlayerId) (cid : ChipId) : Inv (return_chip_palm_to_bag s pid cid).1 := by
  have ht : Inv (ensure_player s pid) := h.ensure pid
  by_cases hm : cid ∈ s.palms pid
  · rw [return_chip_palm_to_bag_eq hm]
    have hm' : cid ∈ containerOf (ensure_player s pid) ⟨Zone.palm, some pid⟩ := by
      show cid ∈ (ensure_player s pid).palms pid
      rwa [ensure_player_palms]
    have hold := ht.inloc ⟨Zone.palm, some pid⟩ cid hm'
    dsimp only
    refine ht.chipMove_pres ?_ ?_ ?_ ?_ hold.2 ?_ ?_
    · trivial
    · trivial
    · simp
    · rw [hold.1]; simp [normLoc]
    · intro a ha
      show ((s.palms pid).erase cid).count a
        = ((ensure_player s pid).palms pid).count a
      rw [ensure_player_palms]
      exact List.count_erase_of_ne ha _
    · show ((s.palms pid).erase cid).count cid + 1
        = ((ensure_player s pid).palms pid).count cid
      rw [ensure_player_palms]
      exact erase_count_rem hm
  · rw [return_chip_palm_to_bag_of_not_mem hm]
    exact ht

theorem Inv.move_chip_palm_to_desktop_pres {s : GameState} (h : Inv s)
    (pid : PlayerId) (cid : ChipId) :
    Inv (move_chip_palm_to_desktop s pid cid).1 := by
  have ht : Inv (ensure_player s pid) := h.ensure pid
  by_cases hm : cid ∈ s.palms pid
  · rw [move_chip_palm_to_desktop_eq hm]
    have hm' : cid ∈ containerOf (ensure_player s pid) ⟨Zone.palm, some pid⟩ := by
      show cid ∈ (ensure_player s pid).palms pid
      rwa [ensure_player_palms]
    have hold := ht.inloc ⟨Zone.palm, some pid⟩ cid hm'
    dsimp only
    refine ht.chipMove_pres ?_ ?_ ?_ ?_ hold.2 ?_ ?_
    · trivial
    · trivial
    · simp
    · rw [hold.1]; simp [normLoc]
    · intro a ha
      show ((s.palms pid).erase cid).count a
        = ((ensure_player s pid).palms pid).count a
      rw [ensure_player_palms]
      exact List.count_erase_of_ne ha _
    · show ((s.palms pid).erase cid).count cid + 1
        = ((ensure_player s pid).palms pid).count cid
      rw [ensure_player_palms]
      exact erase_count_rem hm
  · rw [move_chip_palm_to_desktop_of_not_mem hm]
    exact ht

theorem Inv.move_chip_desktop_to_bag_pres {s : GameState} (h : Inv s)
    (pid : PlayerId) (cid : ChipId) :
    Inv (move_chip_desktop_to_bag s pid cid).1 := by
  have ht : Inv (ensure_player s pid) := h.ensure pid
  by_cases hm : cid ∈ s.desktops pid
  · rw [move_chip_desktop_to_bag_eq hm]
    have hm' : cid ∈ containerOf (ensure_player s pid) ⟨Zone.desktop, some pid⟩ := by
      show cid ∈ (ensure_player s pid).desktops pid
      rwa [ensure_player_desktops]
    have hold := ht.inloc ⟨Zone.desktop, some pid⟩ cid hm'
    dsimp only
    refine ht.chipMove_pres ?_ ?_ ?_ ?_ hold.2 ?_ ?_
    · trivial
    · trivial
    · simp
    · rw [hold.1]; simp [normLoc]
    · intro a ha
      show ((s.desktops pid).erase cid).count a
        = ((ensure_player s pid).desktops pid).count a
      rw [ensure_player_desktops]
      exact List.count_erase_of_ne ha _
    · show ((s.desktops pid).erase cid).count cid + 1
        = ((ensure_player s pid).desktops pid).count cid
      rw [ensure_player_desktops]
      exact erase_count_rem hm
  · rw [move_chip_desktop_to_bag_of_not_mem hm]
    exact ht

theorem Inv.move_chip_desktop_to_pot_pres {s : GameState} (h : Inv s)
    (pid : PlayerId) (cid : ChipId) :
    Inv (move_chip_desktop_to_pot s pid cid).1 := by
  have ht : Inv (ensure_player s pid) := h.ensure pid
  by_cases hm : cid ∈ s.desktops pid
  · rw [move_chip_desktop_to_pot_eq hm]
    have hm' : cid ∈ containerOf (ensure_player s pid) ⟨Zone.desktop, some pid⟩ := by
      show cid ∈ (ensure_player s pid).desktops pid
      rwa [ensure_player_desktops]
    have hold := ht.inloc ⟨Zone.desktop, some pid⟩ cid hm'
    dsimp only
    refine ht.chipMove_pres ?_ ?_ ?_ ?_ hold.2 ?_ ?_
    · trivial
    · trivial
    · simp
    · rw [hold.1]; simp [normLoc]
    · intro a ha
      show ((s.desktops pid).erase cid).count a
        = ((ensure_player s pid).desktops pid).count a
      rw [ensure_player_desktops]
      exact List.count_erase_of_ne ha _
    · show ((s.desktops pid).erase cid).count cid + 1
        = ((ensure_player s pid).desktops pid).count cid
      rw [ensure_player_desktops]
      exact erase_count_rem hm
  · rw [move_chip_desktop_to_pot_of_not_mem hm]
    exact ht

theorem Inv.return_chip_from_pot_to_bag_pres {s : GameState} (h : Inv s)
    (pid : PlayerId) (cid : ChipId) :
    Inv (return_chip_from_pot_to_bag s pid cid).1 := by
  have ht : Inv (ensure_player s pid) := h.ensure pid
  by_cases hm : cid ∈ s.pots pid
  · rw [return_chip_from_pot_to_bag_eq hm]
    have hm' : cid ∈ containerOf (ensure_player s pid) ⟨Zone.pot, some pid⟩ := by
      show cid ∈ (ensure_player s pid).pots pid
      rwa [ensure_player_pots]
    have hold := ht.inloc ⟨Zone.pot, some pid⟩ cid hm'
    dsimp only
    refine ht.chipMove_pres ?_ ?_ ?_ ?_ hold.2 ?_ ?_
    · trivial
    · trivial
    · simp
    · rw [hold.1]; simp [normLoc]
    · intro a ha
      show ((s.pots pid).erase cid).count a
        = ((ensure_player s pid).pots pid).count a
      rw [ensure_player_pots]
      exact List.count_erase_of_ne ha _
    · show ((s.pots pid).erase cid).count cid + 1
        = ((ensure_player s pid).pots pid).count cid
      rw [ensure_player_pots]
      exact erase_count_rem hm
  · rw [return_chip_from_pot_to_bag_of_not_mem hm]
    exact ht

theorem Inv.take_pres {s : GameState} (h : Inv s) (pid : PlayerId) (c : Color) :
    Inv (take_any_chip_of_color_from_box_to_bag s pid c).1 := by
  have ht : Inv (ensure_player s pid) := h.ensure pid
  cases hm : ((ensure_player s pid).box.insertionSort (· ≤ ·)).find?
      (fun cid => decide (((ensure_player s pid).ctype cid).color = c)) with
  | none =>
    rw [take_spec_none hm]
    exact ht
  | some m =>
    rw [take_eq_move hm]
    have hmem : m ∈ s.box := by
      have := List.mem_of_find?_eq_some hm
      rw [← ensure_player_box s pid]
      exact (List.perm_insertionSort _ _).mem_iff.mp this
    have hm' : m ∈ containerOf (ensure_player s pid) ⟨Zone.box, none⟩ := by
      show m ∈ (ensure_player s pid).box
      rwa [ensure_player_box]
    have hold := ht.inloc ⟨Zone.box, none⟩ m hm'
    dsimp only
    refine ht.chipMove_pres ?_ ?_ ?_ ?_ hold.2 ?_ ?_
    · trivial
    · trivial
    · simp
    · rw [hold.1]; simp [normLoc]
    · intro a ha
      show ((s.box).erase m).count a = ((ensure_player s pid).box).count a
      rw [ensure_player_box]
      exact List.count_erase_of_ne ha _
    · show ((s.box).erase m).count m + 1 = ((ensure_player s pid).box).count m
      rw [ensure_player_box]
      exact erase_count_rem hmem

/-- The common shape of `return_all_palm_to_bag` / `return_all_pot_to_bag`:
flush one whole container into the bag, re-pointing every moved chip. -/
def bulkMove (t : GameState) (pid : PlayerId) (src : Location)
    (moved : List ChipId) : GameState :=
  locSet (locSet { t with wh := fun c =>
      if c ∈ moved then ⟨Zone.bag, some pid⟩ else t.wh c } src [])
    ⟨Zone.bag, some pid⟩ (t.bags pid ++ moved)

theorem return_all_palm_to_bag_of_empty {s : GameState} {pid : PlayerId}
    (h : s.palms pid = []) :
    return_all_palm_to_bag s pid = (ensure_player s pid, []) := by
  unfold return_all_palm_to_bag
  simp [ensure_player_palms, h]

theorem return_all_palm_to_bag_eq {s : GameState} {pid : PlayerId}
    (h : s.palms pid ≠ []) :
    return_all_palm_to_bag s pid
      = (bulkMove (ensure_player s pid) pid ⟨Zone.palm, some pid⟩ (s.palms pid),
         s.palms pid) := by
  unfold return_all_palm_to_bag bulkMove locSet
  simp [ensure_player_palms, ensure_player_bags, h]

theorem return_all_pot_to_bag_of_empty {s : GameState} {pid : PlayerId}
    (h : s.pots pid = []) :
    return_all_pot_to_bag s pid = (ensure_player s pid, []) := by
  unfold return_all_pot_to_bag
  simp [ensure_player_pots, h]

theorem return_all_pot_to_bag_eq {s : GameState} {pid : PlayerId}
    (h : s.pots pid ≠ []) :
    return_all_pot_to_bag s pid
      = (bulkMove (ensure_player s pid) pid ⟨Zone.pot, some pid⟩ (s.pots pid),
         s.pots pid) := by
  unfold return_all_pot_to_bag bulkMove locSet
  simp [ensure_player_pots, ensure_player_bags, h]

theorem Inv.bulkMove_pres {t : GameState} (ht : Inv t) {pid : PlayerId}
    {src : Location} {moved : List ChipId}
    (hgs : GoodLoc src) (hne : src ≠ ⟨Zone.bag, some pid⟩)
    (hmv : moved = containerOf t src) :
    Inv (bulkMove t pid src moved) := by
  have hgB : GoodLoc ⟨Zone.bag, some pid⟩ := trivial
  have hBn : normLoc ⟨Zone.bag, some pid⟩ = ⟨Zone.bag, some pid⟩ := by
    simp [normLoc]
  have hsn : normLoc src = src := normLoc_goodLoc _ hgs
  have hchips : (bulkMove t pid src moved).chips = t.chips := by
    unfold bulkMove
    rw [locSet_chips, locSet_chips]
  have hwh' : (bulkMove t pid src moved).wh
      = fun c => if c ∈ moved then ⟨Zone.bag, some pid⟩ else t.wh c := by
    unfold bulkMove
    rw [locSet_wh, locSet_wh]
  have hcont : ∀ loc', containerOf (bulkMove t pid src moved) loc'
      = if normLoc loc' = ⟨Zone.bag, some pid⟩ then t.bags pid ++ moved
        else if normLoc loc' = src then []
        else containerOf t loc' := by
    intro loc'
    unfold bulkMove
    rw [containerOf_locSet _ _ _ _ hgB]
    by_cases hB : normLoc loc' = ⟨Zone.bag, some pid⟩
    · simp [hB]
    · rw [if_neg hB, if_neg hB, containerOf_locSet _ _ _ _ hgs,
        containerOf_set_wh]
  constructor
  · intro c hc
    rw [hchips] at hc
    by_cases hcm : c ∈ moved
    · have hcsrc : c ∈ containerOf t src := hmv ▸ hcm
      have hold := ht.inloc src c hcsrc
      have hwc : (bulkMove t pid src moved).wh c = ⟨Zone.bag, some pid⟩ := by
        rw [hwh']; simp [hcm]
      rw [hwc, hcont _, if_pos hBn, List.count_append]
      have hbag0 : (t.bags pid).count c = 0 := by
        have : (containerOf t ⟨Zone.bag, some pid⟩).count c = 0 := by
          apply ht.count_zero
          rw [hold.1, hsn, hBn]
          exact hne
        exact this
      have hmov1 : moved.count c = 1 := by
        rw [hmv]
        have hp := ht.placed c hold.2
        rw [hold.1, hsn] at hp
        exact hp
      omega
    · have hwc : (bulkMove t pid src moved).wh c = t.wh c := by
        rw [hwh']; simp [hcm]
      rw [hwc, hcont _]
      by_cases hB : normLoc (t.wh c) = ⟨Zone.bag, some pid⟩
      · rw [if_pos hB, List.count_append]
        have hmov0 : moved.count c = 0 := List.count_eq_zero_of_not_mem hcm
        have hbag1 : (t.bags pid).count c = 1 := by
          have hp := ht.placed c hc
          have : containerOf t (t.wh c)
              = containerOf t ⟨Zone.bag, some pid⟩ := by
            rw [← containerOf_norm t (t.wh c), hB]
          rw [this] at hp
          exact hp
        omega
      · rw [if_neg hB]
        by_cases hS : normLoc (t.wh c) = src
        · exfalso
          have hp := ht.placed c hc
          have : containerOf t (t.wh c) = containerOf t src := by
            rw [← containerOf_norm t (t.wh c), hS]
          rw [this] at hp
          have : c ∈ containerOf t src := List.count_pos_iff.mp (by omega)
          exact hcm (hmv ▸ this)
        · rw [if_neg hS]
          exact ht.placed c hc
  · intro loc' c hm'
    rw [hcont loc'] at hm'
    rw [hchips, hwh']
    by_cases hB : normLoc loc' = ⟨Zone.bag, some pid⟩
    · rw [if_pos hB] at hm'
      rcases List.mem_append.mp hm' with hbag | hmov
      · have hold := ht.inloc ⟨Zone.bag, some pid⟩ c hbag
        have hcm : c ∉ moved := by
          intro hcm
          have h2 := ht.inloc src c (hmv ▸ hcm)
          apply hne
          rw [← hsn, ← h2.1, hold.1, hBn]
        refine ⟨?_, hold.2⟩
        simp only [hcm, if_neg, if_false]
        rw [hold.1, hBn, hB]
      · refine ⟨?_, (ht.inloc src c (hmv ▸ hmov)).2⟩
        simp only [hmov, if_pos, if_true]
        rw [hB]
    · rw [if_neg hB] at hm'
      by_cases hS : normLoc loc' = src
      · rw [if_pos hS] at hm'
        simp at hm'
      · rw [if_neg hS] at hm'
        have hold := ht.inloc loc' c hm'
        have hcm : c ∉ moved := by
          intro hcm
          have h2 := ht.inloc src c (hmv ▸ hcm)
          apply hS
          rw [← hold.1, h2.1, hsn]
        refine ⟨?_, hold.2⟩
        simp only [hcm, if_neg, if_false]
        exact hold.1

theorem Inv.return_all_palm_pres {s : GameState} (h : Inv s) (pid : PlayerId) :
    Inv (return_all_palm_to_bag s pid).1 := by
  by_cases hp : s.palms pid = []
  · rw [return_all_palm_to_bag_of_empty hp]
    exact h.ensure pid
  · rw [return_all_palm_to_bag_eq hp]
    dsimp only
    refine (h.ensure pid).bulkMove_pres ?_ ?_ ?_
    · trivial
    · simp
    · show s.palms pid = (ensure_player s pid).palms pid
      rw [ensure_player_palms]

theorem Inv.return_all_pot_pres {s : GameState} (h : Inv s) (pid : PlayerId) :
    Inv (return_all_pot_to_bag s pid).1 := by
  by_cases hp : s.pots pid = []
  · rw [return_all_pot_to_bag_of_empty hp]
    exact h.ensure pid
  · rw [return_all_pot_to_bag_eq hp]
    dsimp only
    refine (h.ensure pid).bulkMove_pres ?_ ?_ ?_
    · trivial
    · simp
    · show s.pots pid = (ensure_player s pid).pots pid
      rw [ensure_player_pots]

theorem Inv.draw_n_pres {s : GameState} (h : Inv s) (pid : PlayerId)
    (n : Nat) (rng : List Nat) : Inv (draw_n_from_bag s pid n rng).1 := by
  induction n generalizing s rng with
  | zero => exact h
  | succ n ih =>
    unfold draw_n_from_bag
    by_cases hb : (s.bags pid).isEmpty
    · rw [if_pos hb]
      exact h
    · rw [if_neg hb]
      cases hd : draw_from_bag s pid (rng.headD 0) with
      | mk s1 o =>
        have h1 : Inv s1 := by
          have := h.draw_from_bag_pres pid (rng.headD 0)
          rwa [hd] at this
        cases o with
        | some cid =>
          dsimp only
          exact ih h1 rng.tail
        | none => exact h1

theorem Inv.draw_n_palm_pres {s : GameState} (h : Inv s) (pid : PlayerId)
    (n : Nat) (rng : List Nat) : Inv (draw_n_from_bag_to_palm s pid n rng).1 := by
  induction n generalizing s rng with
  | zero => exact h.ensure pid
  | succ n ih =>
    unfold draw_n_from_bag_to_palm
    by_cases hb : ((ensure_player s pid).bags pid).isEmpty
    · simp only [hb, if_true]
      exact h.ensure pid
    · simp only [hb, Bool.false_eq_true, if_false]
      cases hd : draw_from_bag_to_palm (ensure_player s pid) pid (rng.headD 0) with
      | mk s1 o =>
        have h1 : Inv s1 := by
          have := (h.ensure pid).draw_from_bag_to_palm_pres pid (rng.headD 0)
          rwa [hd] at this
        cases o with
        | some cid =>
          dsimp only
          exact ih h1 rng.tail
        | none => exact h1

theorem build_pool_inv (df : List (Color × List (Int × Nat))) :
    Inv (build_pool df) := by
  constructor
  · intro cid hc
    show (List.range (chipSeq df).length).count cid = 1
    exact List.count_eq_one_of_mem (List.nodup_range _) hc
  · intro loc cid hm
    rcases loc with ⟨z, p⟩
    cases z <;> cases p <;> simp [containerOf, build_pool] at hm <;>
      exact ⟨by simp [build_pool, normLoc], by simpa [build_pool] using hm⟩

/-- Closure of an initial pool under the zone-transition actions of
`actions.py` (plus `ensure_player`): the states the claim quantifies
over. -/
inductive Reachable : GameState → Prop where
  | init (df : List (Color × List (Int × Nat))) : Reachable (build_pool df)
  | ensure {s : GameState} (pid : PlayerId) :
      Reachable s → Reachable (ensure_player s pid)
  | drawPot {s : GameState} (pid : PlayerId) (r : Nat) :
      Reachable s → Reachable (draw_from_bag s pid r).1
  | drawNPot {s : GameState} (pid : PlayerId) (n : Nat) (rng : List Nat) :
      Reachable s → Reachable (draw_n_from_bag s pid n rng).1
  | drawPalm {s : GameState} (pid : PlayerId) (r : Nat) :
      Reachable s → Reachable (draw_from_bag_to_palm s pid r).1
  | drawNPalm {s : GameState} (pid : PlayerId) (n : Nat) (rng : List Nat) :
      Reachable s → Reachable (draw_n_from_bag_to_palm s pid n rng).1
  | palmPot {s : GameState} (pid : PlayerId) (cid : ChipId) :
      Reachable s → Reachable (move_chip_palm_to_pot s pid cid).1
  | palmBag {s : GameState} (pid : PlayerId) (cid : ChipId) :
      Reachable s → Reachable (return_chip_palm_to_bag s pid cid).1
  | palmAll {s : GameState} (pid : PlayerId) :
      Reachable s → Reachable (return_all_palm_to_bag s pid).1
  | palmDesk {s : GameState} (pid : PlayerId) (cid : ChipId) :
      Reachable s → Reachable (move_chip_palm_to_desktop s pid cid).1
  | deskBag {s : GameState} (pid : PlayerId) (cid : ChipId) :
      Reachable s → Reachable (move_chip_desktop_to_bag s pid cid).1
  | deskPot {s : GameState} (pid : PlayerId) (cid : ChipId) :
      Reachable s → Reachable (move_chip_desktop_to_pot s pid cid).1
  | potBag {s : GameState} (pid : PlayerId) (cid : ChipId) :
      Reachable s → Reachable (return_chip_from_pot_to_bag s pid cid).1
  | potAll {s : GameState} (pid : PlayerId) :
      Reachable s → Reachable (return_all_pot_to_bag s pid).1
  | takeBox {s : GameState} (pid : PlayerId) (c : Color) :
      Reachable s → Reachable (take_any_chip_of_color_from_box_to_bag s pid c).1

/-- C1: in every state reachable from a pool construction through the
zone-transition actions, every chip of the pool sits exactly once in the
single container its recorded `where` Location names (`Inv`), every chip
found in any container is a pool chip, and the chips spread over the
containers are exactly the pool chips — so each action preserves
conservation, with no duplicates and no omissions. -/
theorem C1_unique_location (s : GameState) (h : Reachable s) :
    Inv s ∧ (∀ cid, cid ∈ s.chips ↔ ∃ loc, cid ∈ containerOf s loc) := by
  have hinv : Inv s := by
    induction h with
    | init df => exact build_pool_inv df
    | ensure pid _ ih => exact ih.ensure pid
    | drawPot pid r _ ih => exact ih.draw_from_bag_pres pid r
    | drawNPot pid n rng _ ih => exact ih.draw_n_pres pid n rng
    | drawPalm pid r _ ih => exact ih.draw_from_bag_to_palm_pres pid r
    | drawNPalm pid n rng _ ih => exact ih.draw_n_palm_pres pid n rng
    | palmPot pid cid _ ih => exact ih.move_chip_palm_to_pot_pres pid cid
    | palmBag pid cid _ ih => exact ih.return_chip_palm_to_bag_pres pid cid
    | palmAll pid _ ih => exact ih.return_all_palm_pres pid
    | palmDesk pid cid _ ih => exact ih.move_chip_palm_to_desktop_pres pid cid
    | deskBag pid cid _ ih => exact ih.move_chip_desktop_to_bag_pres pid cid
    | deskPot pid cid _ ih => exact ih.move_chip_desktop_to_pot_pres pid cid
    | potBag pid cid _ ih => exact ih.return_chip_from_pot_to_bag_pres pid cid
    | potAll pid _ ih => exact ih.return_all_pot_pres pid
    | takeBox pid c _ ih => exact ih.take_pres pid c
  refine ⟨hinv, fun cid => ⟨fun hc => ?_, fun hex => ?_⟩⟩
  · exact ⟨s.wh cid, List.count_pos_iff.mp (by rw [hinv.placed cid hc]; omega)⟩
  · obtain ⟨loc, hm⟩ := hex
    exact (hinv.inloc loc cid hm).2

theorem C1_witness :
    Inv (build_pool [(Color.gray, [(1, 2)])])
    ∧ (0 ∈ (build_pool [(Color.gray, [(1, 2)])]).chips ↔
        ∃ loc, 0 ∈ containerOf (build_pool [(Color.gray, [(1, 2)])]) loc) := by
  have h := C1_unique_location _ (Reachable.init [(Color.gray, [(1, 2)])])
  exact ⟨h.1, h.2 0⟩

/-! ## C9 — round-cleanup bag arithmetic -/

/-- The bag/palm/pot moves of one player during a round: the draw,
commit and retroactive-removal actions of `actions.py` the claim
quantifies over. -/
inductive PlayerMove where
  | drawPot (r : Nat)
  | drawNPot (n : Nat) (rng : List Nat)
  | drawPalm (r : Nat)
  | drawNPalm (n : Nat) (rng : List Nat)
  | palmPot (cid : ChipId)
  | palmBag (cid : ChipId)
  | palmAll
  | potBag (cid : ChipId)
  | potAll

def applyMove (s : GameState) (pid : PlayerId) : PlayerMove → GameState
  | .drawPot r => (draw_from_bag s pid r).1
  | .drawNPot n rng => (draw_n_from_bag s pid n rng).1
  | .drawPalm r => (draw_from_bag_to_palm s pid r).1
  | .drawNPalm n rng => (draw_n_from_bag_to_palm s pid n rng).1
  | .palmPot cid => (move_chip_palm_to_pot s pid cid).1
  | .palmBag cid => (return_chip_palm_to_bag s pid cid).1
  | .palmAll => (return_all_palm_to_bag s pid).1
  | .potBag cid => (return_chip_from_pot_to_bag s pid cid).1
  | .potAll => (return_all_pot_to_bag s pid).1

def applyMoves (s : GameState) : List (PlayerId × PlayerMove) → GameState
  | [] => s
  | m :: rest => applyMoves (applyMove s m.1 m.2) rest

/-- Joint size of one player's bag, palm and pot. -/
def bpp (s : GameState) (pid : PlayerId) : Nat :=
  (s.bags pid).length + (s.palms pid).length + (s.pots pid).length

theorem ensure_bpp (s : GameState) (pid q : PlayerId) :
    bpp (ensure_player s pid) q = bpp s q := by
  simp [bpp, ensure_player_bags, ensure_player_palms, ensure_player_pots]

theorem draw_from_bag_bpp (s : GameState) (pid : PlayerId) (r : Nat)
    (q : PlayerId) : bpp (draw_from_bag s pid r).1 q = bpp s q := by
  by_cases hb : s.bags pid = []
  · rw [draw_from_bag_of_empty hb]
    exact ensure_bpp s pid q
  · rw [draw_from_bag_of_ne r hb]
    have hlen : 0 < (s.bags pid).length := List.length_pos.mpr hb
    by_cases hq : q = pid
    · subst hq
      simp [bpp, upd, ensure_player_bags, ensure_player_palms,
        ensure_player_pots, length_swapRemove]
      omega
    · simp [bpp, upd, hq, ensure_player_bags, ensure_player_palms,
        ensure_player_pots]

theorem draw_from_bag_to_palm_bpp (s : GameState) (pid : PlayerId) (r : Nat)
    (q : PlayerId) : bpp (draw_from_bag_to_palm s pid r).1 q = bpp s q := by
  by_cases hb : s.bags pid = []
  · rw [draw_from_bag_to_palm_of_empty hb]
    exact ensure_bpp s pid q
  · rw [draw_from_bag_to_palm_of_ne r hb]
    have hlen : 0 < (s.bags pid).length := List.length_pos.mpr hb
    by_cases hq : q = pid
    · subst hq
      simp [bpp, upd, ensure_player_bags, ensure_player_palms,
        ensure_player_pots, length_swapRemove]
      omega
    · simp [bpp, upd, hq, ensure_player_bags, ensure_player_palms,
        ensure_player_pots]

theorem draw_n_from_bag_bpp (s : GameState) (pid : PlayerId) (n : Nat)
    (rng : List Nat) (q : PlayerId) :
    bpp (draw_n_from_bag s pid n rng).1 q = bpp s q := by
  induction n generalizing s rng with
  | zero => rfl
  | succ n ih =>
    unfold draw_n_from_bag
    by_cases hb : (s.bags pid).isEmpty
    · rw [if_pos hb]
    · rw [if_neg hb]
      cases hd : draw_from_bag s pid (rng.headD 0) with
      | mk s1 o =>
        have h1 : bpp s1 q = bpp s q := by
          have := draw_from_bag_bpp s pid (rng.headD 0) q
          rwa [hd] at this
        cases o with
        | some cid =>
          dsimp only
          rw [ih s1 rng.tail, h1]
        | none => exact h1

theorem draw_n_from_bag_to_palm_bpp (s : GameState) (pid : PlayerId) (n : Nat)
    (rng : List Nat) (q : PlayerId) :
    bpp (draw_n_from_bag_to_palm s pid n rng).1 q = bpp s q := by
  induction n generalizing s rng with
  | zero => exact ensure_bpp s pid q
  | succ n ih =>
    unfold draw_n_from_bag_to_palm
    by_cases hb : ((ensure_player s pid).bags pid).isEmpty
    · simp only [hb, if_true]
      exact ensure_bpp s pid q
    · simp only [hb, Bool.false_eq_true, if_false]
      cases hd : draw_from_bag_to_palm (ensure_player s pid) pid (rng.headD 0) with
      | mk s1 o =>
        have h1 : bpp s1 q = bpp s q := by
          have := draw_from_bag_to_palm_bpp (ensure_player s pid) pid
            (rng.headD 0) q
          rw [hd] at this
          rw [this]
          exact ensure_bpp s pid q
        cases o with
        | some cid =>
          dsimp only
          rw [ih s1 rng.tail, h1]
        | none => exact h1

theorem move_chip_palm_to_pot_bpp (s : GameState) (pid : PlayerId)
    (cid : ChipId) (q : PlayerId) :
    bpp (move_chip_palm_to_pot s pid cid).1 q = bpp s q := by
  by_cases hm : cid ∈ s.palms pid
  · rw [move_chip_palm_to_pot_eq hm]
    dsimp only
    unfold chipMove locSet
    have hlen : ((s.palms pid).erase cid).length + 1 = (s.palms pid).length := by
      rw [List.length_erase_of_mem hm]
      have : 0 < (s.palms pid).length := List.length_pos.mpr
        (List.ne_nil_of_mem hm)
      omega
    by_cases hq : q = pid
    · subst hq
      simp [bpp, upd, containerOf, ensure_player_bags, ensure_player_palms,
        ensure_player_pots]
      omega
    · simp [bpp, upd, hq, containerOf, ensure_player_bags,
        ensure_player_palms, ensure_player_pots]
  · rw [move_chip_palm_to_pot_of_not_mem hm]
    exact ensure_bpp s pid q

theorem return_chip_palm_to_bag_bpp (s : GameState) (pid : PlayerId)
    (cid : ChipId) (q : PlayerId) :
    bpp (return_chip_palm_to_bag s pid cid).1 q = bpp s q := by
  by_cases hm : cid ∈ s.palms pid
  · rw [return_chip_palm_to_bag_eq hm]
    dsimp only
    unfold chipMove locSet
    have hlen : ((s.palms pid).erase cid).length + 1 = (s.palms pid).length := by
      rw [List.length_erase_of_mem hm]
      have : 0 < (s.palms pid).length := List.length_pos.mpr
        (List.ne_nil_of_mem hm)
      omega
    by_cases hq : q = pid
    · subst hq
      simp [bpp, upd, containerOf, ensure_player_bags, ensure_player_palms,
        ensure_player_pots]
      omega
    · simp [bpp, upd, hq, containerOf, ensure_player_bags,
        ensure_player_palms, ensure_player_pots]
  · rw [return_chip_palm_to_bag_of_not_mem hm]
    exact ensure_bpp s pid q

theorem return_chip_from_pot_to_bag_bpp (s : GameState) (pid : PlayerId)
    (cid : ChipId) (q : PlayerId) :
    bpp (return_chip_from_pot_to_bag s pid cid).1 q = bpp s q := by
  by_cases hm : cid ∈ s.pots pid
  · rw [return_chip_from_pot_to_bag_eq hm]
    dsimp only
    unfold chipMove locSet
    have hlen : ((s.pots pid).erase cid).length + 1 = (s.pots pid).length := by
      rw [List.length_erase_of_mem hm]
      have : 0 < (s.pots pid).length := List.length_pos.mpr
        (List.ne_nil_of_mem hm)
      omega
    by_cases hq : q = pid
    · subst hq
      simp [bpp, upd, containerOf, ensure_player_bags, ensure_player_palms,
        ensure_player_pots]
      omega
    · simp [bpp, upd, hq, containerOf, ensure_player_bags,
        ensure_player_palms, ensure_player_pots]
  · rw [return_chip_from_pot_to_bag_of_not_mem hm]
    exact ensure_bpp s pid q

theorem return_all_palm_to_bag_bpp (s : GameState) (pid : PlayerId)
    (q : PlayerId) : bpp (return_all_palm_to_bag s pid).1 q = bpp s q := by
  by_cases hp : s.palms pid = []
  · rw [return_all_palm_to_bag_of_empty hp]
    exact ensure_bpp s pid q
  · rw [return_all_palm_to_bag_eq hp]
    dsimp only
    unfold bulkMove locSet
    by_cases hq : q = pid
    · subst hq
      simp [bpp, upd, ensure_player_bags, ensure_player_palms,
        ensure_player_pots]
    · simp [bpp, upd, hq, ensure_player_bags, ensure_player_palms,
        ensure_player_pots]

theorem return_all_pot_to_bag_bpp (s : GameState) (pid : PlayerId)
    (q : PlayerId) : bpp (return_all_pot_to_bag s pid).1 q = bpp s q := by
  by_cases hp : s.pots pid = []
  · rw [return_all_pot_to_bag_of_empty hp]
    exact ensure_bpp s pid q
  · rw [return_all_pot_to_bag_eq hp]
    dsimp only
    unfold bulkMove locSet
    by_cases hq : q = pid
    · subst hq
      simp [bpp, upd, ensure_player_bags, ensure_player_palms,
        ensure_player_pots]
      omega
    · simp [bpp, upd, hq, ensure_player_bags, ensure_player_palms,
        ensure_player_pots]

theorem applyMove_bpp (s : GameState) (pid : PlayerId) (m : PlayerMove)
    (q : PlayerId) : bpp (applyMove s pid m) q = bpp s q := by
  cases m with
  | drawPot r => exact draw_from_bag_bpp s pid r q
  | drawNPot n rng => exact draw_n_from_bag_bpp s pid n rng q
  | drawPalm r => exact draw_from_bag_to_palm_bpp s pid r q
  | drawNPalm n rng => exact draw_n_from_bag_to_palm_bpp s pid n rng q
  | palmPot cid => exact move_chip_palm_to_pot_bpp s pid cid q
  | palmBag cid => exact return_chip_palm_to_bag_bpp s pid cid q
  | palmAll => exact return_all_palm_to_bag_bpp s pid q
  | potBag cid => exact return_chip_from_pot_to_bag_bpp s pid cid q
  | potAll => exact return_all_pot_to_bag_bpp s pid q

theorem applyMoves_bpp (s : GameState) (moves : List (PlayerId × PlayerMove))
    (q : PlayerId) : bpp (applyMoves s moves) q = bpp s q := by
  induction moves generalizing s with
  | nil => rfl
  | cons m rest ih =>
    unfold applyMoves
    rw [ih, applyMove_bpp]

/-- Per-player epilogue of `run_round`: flush a non-empty palm, then
return the whole pot to the bag. -/
def cleanup_player (s : GameState) (pid : PlayerId) : GameState :=
  (return_all_pot_to_bag (flushPalm s pid) pid).1

/-- End-of-round cleanup of `run_round`: per-player flushes, then clear
the active round-modifier and active-event pointers. -/
def round_cleanup (s : GameState) (pids : List PlayerId) : GameState :=
  let s1 := pids.foldl cleanup_player s
  { s1 with active_blue_event := none, current_event := none }

theorem return_all_palm_fields (s : GameState) (pid : PlayerId) :
    (return_all_palm_to_bag s pid).1.palms pid = []
    ∧ (return_all_palm_to_bag s pid).1.pots = s.pots
    ∧ (∀ q, q ≠ pid → (return_all_palm_to_bag s pid).1.palms q = s.palms q
        ∧ (return_all_palm_to_bag s pid).1.bags q = s.bags q) := by
  by_cases hp : s.palms pid = []
  · rw [return_all_palm_to_bag_of_empty hp]
    refine ⟨by rw [ensure_player_palms]; exact hp, ensure_player_pots s pid,
      fun q _ => ⟨by rw [ensure_player_palms], by rw [ensure_player_bags]⟩⟩
  · rw [return_all_palm_to_bag_eq hp]
    dsimp only
    unfold bulkMove locSet
    refine ⟨by simp [upd], by simp [ensure_player_pots], fun q hq => ?_⟩
    simp [upd, hq, ensure_player_palms, ensure_player_bags]

theorem return_all_pot_fields (s : GameState) (pid : PlayerId) :
    (return_all_pot_to_bag s pid).1.pots pid = []
    ∧ (return_all_pot_to_bag s pid).1.palms = s.palms
    ∧ (∀ q, q ≠ pid → (return_all_pot_to_bag s pid).1.pots q = s.pots q
        ∧ (return_all_pot_to_bag s pid).1.bags q = s.bags q) := by
  by_cases hp : s.pots pid = []
  · rw [return_all_pot_to_bag_of_empty hp]
    refine ⟨by rw [ensure_player_pots]; exact hp, ensure_player_palms s pid,
      fun q _ => ⟨by rw [ensure_player_pots], by rw [ensure_player_bags]⟩⟩
  · rw [return_all_pot_to_bag_eq hp]
    dsimp only
    unfold bulkMove locSet
    refine ⟨by simp [upd], by simp [ensure_player_palms], fun q hq => ?_⟩
    simp [upd, hq, ensure_player_pots, ensure_player_bags]

theorem flushPalm_bpp (s : GameState) (pid q : PlayerId) :
    bpp (flushPalm s pid) q = bpp s q := by
  unfold flushPalm
  split
  · rfl
  · exact return_all_palm_to_bag_bpp s pid q

theorem cleanup_player_bpp (s : GameState) (pid q : PlayerId) :
    bpp (cleanup_player s pid) q = bpp s q := by
  unfold cleanup_player
  rw [return_all_pot_to_bag_bpp, flushPalm_bpp]

theorem flushPalm_own (s : GameState) (pid : PlayerId) :
    (flushPalm s pid).palms pid = [] := by
  unfold flushPalm
  split
  · next hp => exact List.isEmpty_iff.mp hp
  · exact (return_all_palm_fields s pid).1

theorem flushPalm_other (s : GameState) (pid q : PlayerId) (hq : q ≠ pid) :
    (flushPalm s pid).palms q = s.palms q
    ∧ (flushPalm s pid).bags q = s.bags q := by
  unfold flushPalm
  split
  · exact ⟨rfl, rfl⟩
  · exact (return_all_palm_fields s pid).2.2 q hq

theorem flushPalm_pots (s : GameState) (pid : PlayerId) :
    (flushPalm s pid).pots = s.pots := by
  unfold flushPalm
  split
  · rfl
  · exact (return_all_palm_fields s pid).2.1

theorem cleanup_player_own (s : GameState) (pid : PlayerId) :
    (cleanup_player s pid).palms pid = []
    ∧ (cleanup_player s pid).pots pid = [] := by
  unfold cleanup_player
  refine ⟨?_, (return_all_pot_fields _ pid).1⟩
  rw [(return_all_pot_fields _ pid).2.1]
  exact flushPalm_own s pid

theorem cleanup_player_other (s : GameState) (pid q : PlayerId) (hq : q ≠ pid) :
    (cleanup_player s pid).palms q = s.palms q
    ∧ (cleanup_player s pid).pots q = s.pots q
    ∧ (cleanup_player s pid).bags q = s.bags q := by
  unfold cleanup_player
  refine ⟨?_, ?_, ?_⟩
  · rw [(return_all_pot_fields _ pid).2.1]
    exact (flushPalm_other s pid q hq).1
  · rw [((return_all_pot_fields _ pid).2.2 q hq).1, flushPalm_pots]
  · rw [((return_all_pot_fields _ pid).2.2 q hq).2]
    exact (flushPalm_other s pid q hq).2

theorem foldl_cleanup_other (pids : List PlayerId) (s : GameState)
    (pid : PlayerId) (h : pid ∉ pids) :
    (pids.foldl cleanup_player s).palms pid = s.palms pid
    ∧ (pids.foldl cleanup_player s).pots pid = s.pots pid
    ∧ (pids.foldl cleanup_player s).bags pid = s.bags pid := by
  induction pids generalizing s with
  | nil => exact ⟨rfl, rfl, rfl⟩
  | cons p rest ih =>
    have hne : pid ≠ p := by
      intro hx
      exact h (hx ▸ List.mem_cons_self p rest)
    have hrest : pid ∉ rest := fun hx => h (List.mem_cons_of_mem p hx)
    rw [List.foldl_cons]
    obtain ⟨h1, h2, h3⟩ := ih (cleanup_player s p) hrest
    obtain ⟨g1, g2, g3⟩ := cleanup_player_other s p pid hne
    exact ⟨h1.trans g1, h2.trans g2, h3.trans g3⟩

theorem foldl_cleanup_spec (pids : List PlayerId) (s : GameState)
    (pid : PlayerId) (h : pid ∈ pids) :
    (pids.foldl cleanup_player s).palms pid = []
    ∧ (pids.foldl cleanup_player s).pots pid = []
    ∧ ((pids.foldl cleanup_player s).bags pid).length = bpp s pid := by
  induction pids generalizing s with
  | nil => simp at h
  | cons p rest ih =>
    rw [List.foldl_cons]
    by_cases hp : pid ∈ rest
    · obtain ⟨h1, h2, h3⟩ := ih (cleanup_player s p) hp
      exact ⟨h1, h2, h3.trans (cleanup_player_bpp s p pid)⟩
    · have hpe : pid = p := by
        rcases List.mem_cons.mp h with hx | hx
        · exact hx
        · exact absurd hx hp
      subst hpe
      obtain ⟨h1, h2, h3⟩ := foldl_cleanup_other rest (cleanup_player s pid)
        pid hp
      obtain ⟨g1, g2⟩ := cleanup_player_own s pid
      refine ⟨h1.trans g1, h2.trans g2, ?_⟩
      have hbpp := cleanup_player_bpp s pid pid
      rw [bpp, g1, g2] at hbpp
      simp at hbpp
      rw [h3]
      exact hbpp

/-- C9: whatever sequence of bag/palm/pot draw, commit, return and
removal actions the round performed (for any players), after
`run_round`'s cleanup every listed player's palm and pot are empty and
their bag size is the round-start bag size plus the round-start palm and
pot sizes. -/
theorem C9_cleanup_bag_size (s0 : GameState)
    (moves : List (PlayerId × PlayerMove)) (pids : List PlayerId)
    (pid : PlayerId) (hmem : pid ∈ pids) :
    (round_cleanup (applyMoves s0 moves) pids).palms pid = []
    ∧ (round_cleanup (applyMoves s0 moves) pids).pots pid = []
    ∧ ((round_cleanup (applyMoves s0 moves) pids).bags pid).length
        = (s0.bags pid).length + (s0.palms pid).length + (s0.pots pid).length := by
  obtain ⟨h1, h2, h3⟩ := foldl_cleanup_spec pids (applyMoves s0 moves) pid hmem
  have hb : bpp (applyMoves s0 moves) pid = bpp s0 pid :=
    applyMoves_bpp s0 moves pid
  refine ⟨h1, h2, ?_⟩
  rw [show (round_cleanup (applyMoves s0 moves) pids).bags
    = (pids.foldl cleanup_player (applyMoves s0 moves)).bags from rfl, h3, hb]
  rfl

theorem C9_witness :
    (round_cleanup (applyMoves (build_pool []) [(0, PlayerMove.palmAll)]) [0]).palms 0 = []
    ∧ (round_cleanup (applyMoves (build_pool []) [(0, PlayerMove.palmAll)]) [0]).pots 0 = []
    ∧ ((round_cleanup (applyMoves (build_pool [])
        [(0, PlayerMove.palmAll)]) [0]).bags 0).length
        = ((build_pool []).bags 0).length + ((build_pool []).palms 0).length
          + ((build_pool []).pots 0).length :=
  C9_cleanup_bag_size (build_pool []) [(0, PlayerMove.palmAll)] [0] 0
    (by decide)

/-! ## Round engine embedding (`rounds.py`, `chip_policies.py`,
`board.py`, `event_cards.py`) -/

/-- `board.BOARD_FIELDS`: the linear board, index = field. -/
def BOARD_FIELDS : List BoardField := [
  ⟨0, 0, false⟩, ⟨0, 0, false⟩, ⟨0, 0, false⟩, ⟨0, 0, false⟩, ⟨0, 0, false⟩,
  ⟨0, 0, true⟩, ⟨6, 1, false⟩, ⟨7, 1, false⟩, ⟨8, 1, false⟩, ⟨9, 1, true⟩,
  ⟨10, 2, false⟩, ⟨11, 2, false⟩, ⟨12, 2, false⟩, ⟨13, 2, true⟩,
  ⟨14, 3, false⟩, ⟨15, 3, false⟩, ⟨15, 3, true⟩, ⟨16, 3, false⟩,
  ⟨16, 4, false⟩, ⟨17, 4, false⟩, ⟨17, 4, true⟩, ⟨18, 4, false⟩,
  ⟨18, 5, false⟩, ⟨19, 5, false⟩, ⟨19, 5, true⟩, ⟨20, 5, false⟩,
  ⟨20, 6, false⟩, ⟨21, 6, false⟩, ⟨21, 6, true⟩, ⟨22, 7, false⟩,
  ⟨22, 7, true⟩, ⟨23, 7, false⟩, ⟨23, 8, false⟩, ⟨24, 8, false⟩,
  ⟨24, 8, true⟩, ⟨25, 9, false⟩, ⟨25, 9, true⟩, ⟨26, 9, false⟩,
  ⟨26, 10, false⟩, ⟨27, 10, false⟩, ⟨27, 10, true⟩, ⟨28, 11, false⟩,
  ⟨28, 11, true⟩, ⟨29, 11, false⟩, ⟨29, 12, false⟩, ⟨30, 12, false⟩,
  ⟨30, 12, true⟩, ⟨31, 12, false⟩, ⟨31, 13, false⟩, ⟨32, 13, false⟩,
  ⟨32, 13, true⟩, ⟨33, 14, false⟩, ⟨33, 14, true⟩, ⟨33, 15, false⟩]

/-- The inner helper of `phase_drawing`: landing rewards keyed by a true
board position (clamped to the table bounds).
Returns `(coins, vp, ruby, landing_index)`. -/
def landing_rewards_for_position (pos : Int) : Int × Int × Bool × Int :=
  if BOARD_FIELDS.isEmpty then (0, 0, false, pos)
  else
    let li : Int := if pos < 0 then 0 else pos
    let li : Int := if li ≥ (BOARD_FIELDS.length : Int)
      then (BOARD_FIELDS.length : Int) - 1 else li
    let f := BOARD_FIELDS.getD li.toNat default
    (f.coins, f.victory_points, f.ruby, li)

/-- `event_cards.EVENT_DECK`: the active (uncommented) deck. -/
def EVENT_DECK : List EventCard := [
  { card_id := "EV12", color := "purple", scope := some "global" },
  { card_id := "EV13", color := "purple", scope := some "per_player" },
  { card_id := "EV14", color := "purple", scope := some "per_player" }]

/-- `rounds.get_active_blue_card`. -/
def get_active_blue_card (s : GameState) : Option EventCard :=
  match s.active_blue_event with
  | none => none
  | some card => if card.color = "blue" then some card else none

/-- `rounds.apply_blue_draw_rule` with the one registered handler
`BLUE_DRAW_RULES = {EV20 : living-in-luxury, limit -> 9}`. -/
def apply_blue_draw_rule (s : GameState) (default_gray_limit : Int) : Int :=
  match get_active_blue_card s with
  | none => default_gray_limit
  | some card =>
    if card.card_id = "EV20" then 9 else default_gray_limit

/-- `rounds.apply_blue_rubies_rule` with the one registered handler
`BLUE_RUBIES_RULES = {EV14 : shining-extra-bright, +1 on a ruby field}`. -/
def apply_blue_rubies_rule (s : GameState) (pid : PlayerId)
    (base_ruby_gain : Int) (landed_on_ruby : Bool) : Int :=
  match get_active_blue_card s with
  | none => base_ruby_gain
  | some card =>
    if card.card_id = "EV14" then
      if landed_on_ruby then base_ruby_gain + 1 else base_ruby_gain
    else base_ruby_gain

/-- `rounds.apply_blue_score_rule` with the one registered handler
`BLUE_SCORE_RULES = {EV23 : lucky-devil, +2 vp on a ruby field}`. -/
def apply_blue_score_rule (s : GameState) (pid : PlayerId)
    (add_coins add_vp : Int) (landed_on_ruby : Bool) : Int × Int :=
  match get_active_blue_card s with
  | none => (add_coins, add_vp)
  | some card =>
    if card.card_id = "EV23" then
      (add_coins, add_vp + (if landed_on_ruby then 2 else 0))
    else (add_coins, add_vp)

/-- `rounds.count_color_in_pot` (also `chip_policies._count_color_in_pot`). -/
def count_color_in_pot (s : GameState) (pid : PlayerId) (color : Color) : Nat :=
  ((s.pots pid).filter (fun cid => decide ((s.ctype cid).color = color))).length

/-- `effective_placement_step`: the module-level definition in
`rounds.py` (which shadows the identical dispatch-table version imported
from `chip_policies.py`): red chips advance base value plus the number
of orange chips already in the pot, every other color advances its base
value. -/
def effective_placement_step (s : GameState) (pid : PlayerId)
    (chip_id : ChipId) : Int :=
  let ctype := s.ctype chip_id
  if ctype.color = Color.red then
    ctype.value + (count_color_in_pot s pid Color.orange : Int)
  else ctype.value

/-- `chip_policies.apply_on_place_effects` with the registered table
`{yellow : may-remove-preceding-gray, blue : stub}`.  The yellow
handler's player prompt is the `yellowAccept` decision. -/
def apply_on_place_effects (s : GameState) (pid : PlayerId)
    (placed_chip_id : ChipId) (yellowAccept : Bool) : GameState :=
  let s := ensure_player s pid
  match (s.ctype placed_chip_id).color with
  | Color.yellow =>
    let pot := s.pots pid
    if pot.length < 2 then s
    else
      let prev_cid := pot.getD (pot.length - 2) 0
      if (s.ctype prev_cid).color = Color.gray then
        if yellowAccept then (return_chip_from_pot_to_bag s pid prev_cid).1
        else s
      else s
  | Color.blue => s
  | _ => s

/-! ### Decision inputs (validated `input()` answers) -/

/-- The per-player choice of EV13/EV14: droplet +2 or take a purple chip. -/
inductive Choice1314 where
  | droplet | purple
deriving DecidableEq, Repr

/-- Validated answers of one pass through the drawing loop body. -/
structure DrawIter where
  nPalm : Nat
  returnAll : Bool
  idx : Nat
  usePotion : Bool
  ev15Accept : Bool
  yellowAccept : Bool
deriving DecidableEq, Repr

/-- One answer to the `continue drawing?` prompt. -/
inductive DrawDecision where
  | stop
  | go (it : DrawIter)
deriving DecidableEq, Repr

/-- One menu answer in the ruby-trade loop. -/
inductive TradeChoice where
  | droplet | potion | quit
deriving DecidableEq, Repr

/-- All externally-supplied decisions of one round. -/
structure RoundDecisions where
  purpleChoice : PlayerId → Choice1314
  ratTails : PlayerId → Nat
  drawScripts : PlayerId → List DrawDecision
  tradeScripts : PlayerId → List TradeChoice

/-- Python exception classes reaching `run_round`. -/
inductive Err where
  | valueError | keyError | prereqMissing
deriving DecidableEq, Repr

/-- A phase outcome: resulting state, remaining rng stream, raised
exception if any (carrying the mutations made before the raise). -/
structure StepRes where
  st : GameState
  rng : List Nat
  err : Option Err

/-! ### Drawing phase -/

/-- Write the per-player tracker dict entry (`trackers[pid] = {...}` /
`trackers[pid]["pos_last"] = pos_last`). -/
def setTracker (s : GameState) (pid : PlayerId) (t : TrackerTD) : GameState :=
  { s with round_ctx := { s.round_ctx with
      draw_trackers := upd s.round_ctx.draw_trackers pid (some t) } }

def setTrackerPos (s : GameState) (pid : PlayerId) (pos : Int) : GameState :=
  setTracker s pid
    (match s.round_ctx.draw_trackers pid with
     | some t => { t with pos_last := pos }
     | none => { pos_start := 0, pos_last := pos, droplet_pos := 0,
                 rat_tails := 0 })

/-- `ev15_used[pid] = True`. -/
def markEv15 (s : GameState) (pid : PlayerId) : GameState :=
  { s with round_ctx := { s.round_ctx with
      ev15_first_white_return_used :=
        upd s.round_ctx.ev15_first_white_return_used pid true } }

/-- The drawing-loop state after one pass of the body. -/
structure LoopState where
  st : GameState
  rng : List Nat
  exploded : Bool
  pos : Int
  halt : Bool

/-- The EV15 extension point inside `phase_drawing`: when the blue EV15
card is active, the committed chip is gray and the per-player one-shot
flag is still clear, the return offer is made; the flag is consumed
whether the player accepts (chip goes back to the bag) or declines. -/
def ev15Offer (s : GameState) (pid : PlayerId) (placed : ChipId)
    (placed_color : Color) (accept : Bool) : GameState :=
  match get_active_blue_card s with
  | some card =>
    if card.card_id = "EV15" ∧ placed_color = Color.gray
        ∧ s.round_ctx.ev15_first_white_return_used pid = false then
      if accept then
        markEv15 ((return_chip_from_pot_to_bag s pid placed).1) pid
      else markEv15 s pid
    else s
  | none => s

/-- Resolution of one committed chip, from `move_chip_palm_to_pot`
through the explosion check (`phase_drawing` lines after the palm
selection): flush the rest of the palm, offer the potion undo, advance
the monotonic position tracker, offer the EV15 one-shot return, apply
on-place effects, recompute pot sums and check the explosion bound. -/
def placeChip (effLimit : Int) (pid : PlayerId) (it : DrawIter)
    (placed : ChipId) (s : GameState) (rng : List Nat) (exploded : Bool)
    (pos_last : Int) : LoopState :=
  let s := flushPalm (move_chip_palm_to_pot s pid placed).1 pid
  let placed_color := (s.ctype placed).color
  if placed_color = Color.gray ∧ exploded = false
      ∧ (getPlayer s pid).potion_filled = true ∧ it.usePotion = true then
    let s := (return_chip_from_pot_to_bag s pid placed).1
    let s := modPlayer s pid (fun p => { p with potion_filled := false })
    ⟨s, rng, exploded, pos_last, false⟩
  else
    let step := effective_placement_step s pid placed
    let pos_last := pos_last + step
    let s := setTrackerPos s pid pos_last
    let s := ev15Offer s pid placed placed_color it.ev15Accept
    let s := apply_on_place_effects s pid placed it.yellowAccept
    let sums := pot_sums s pid
    if sums.1 > effLimit then
      ⟨flushPalm s pid, rng, true, pos_last, true⟩
    else ⟨s, rng, exploded, pos_last, false⟩

/-- One `y`-answered pass of the drawing loop: draw to palm, stop on an
exhausted bag, optionally return everything (only when enabled for the
round), otherwise commit the selected palm chip. -/
def drawIterStep (allow : Bool) (effLimit : Int) (pid : PlayerId)
    (it : DrawIter) (s : GameState) (rng : List Nat) (exploded : Bool)
    (pos_last : Int) : LoopState :=
  let dr := draw_n_from_bag_to_palm s pid it.nPalm rng
  let s := dr.1
  let rng := dr.2.1
  let drawn := dr.2.2
  if drawn.isEmpty then
    ⟨flushPalm s pid, rng, exploded, pos_last, true⟩
  else
    let palm_list := s.palms pid
    if allow ∧ it.returnAll then
      let s := (return_all_palm_to_bag s pid).1
      ⟨s, rng, exploded, pos_last, false⟩
    else
      let placed := palm_list.getD (it.idx % palm_list.length) 0
      placeChip effLimit pid it placed s rng exploded pos_last

/-- The per-player `while True` drawing loop, driven by the decision
script; an exhausted script is the player answering `n`. -/
def drawLoop (allow : Bool) (effLimit : Int) (pid : PlayerId) :
    GameState → List Nat → Bool → Int → List DrawDecision → LoopState
  | s, rng, exploded, pos, [] =>
    ⟨flushPalm s pid, rng, exploded, pos, true⟩
  | s, rng, exploded, pos, DrawDecision.stop :: _ =>
    ⟨flushPalm s pid, rng, exploded, pos, true⟩
  | s, rng, exploded, pos, DrawDecision.go it :: ds =>
    let o := drawIterStep allow effLimit pid it s rng exploded pos
    if o.halt then o
    else drawLoop allow effLimit pid o.st o.rng o.exploded o.pos ds

/-- The per-player body of `phase_drawing`: start position, the loop,
the result snapshot and the defensive palm flush. -/
def draw_player (allow : Bool) (effLimit : Int) (ratMap : PlayerId → Int)
    (s : GameState) (rng : List Nat) (pid : PlayerId)
    (script : List DrawDecision) : GameState × List Nat × DrawResult :=
  let s := ensure_player s pid
  let droplet := (getPlayer s pid).droplet_pos
  let rat := ratMap pid
  let pos_start := droplet + rat
  let s := setTracker s pid
    { pos_start := pos_start, pos_last := pos_start,
      droplet_pos := droplet, rat_tails := rat }
  let o := drawLoop allow effLimit pid s rng false pos_start script
  let s := o.st
  let sums := pot_sums s pid
  let lr := landing_rewards_for_position o.pos
  let result : DrawResult :=
    { droplet_pos := droplet, rat_tails := rat, pos_start := pos_start,
      pos_last := o.pos, gray_sum := sums.1, chip_sum := sums.2,
      exploded := o.exploded, landing_index := lr.2.2.2,
      landing_coins := lr.1, landing_vp := lr.2.1,
      landing_ruby := lr.2.2.1 }
  (flushPalm s pid, o.rng, result)

def drawing_players (allow : Bool) (effLimit : Int) (ratMap : PlayerId → Int)
    (scripts : PlayerId → List DrawDecision) :
    GameState → List Nat → (PlayerId → Option DrawResult) → List PlayerId →
      GameState × List Nat × (PlayerId → Option DrawResult)
  | s, rng, acc, [] => (s, rng, acc)
  | s, rng, acc, pid :: rest =>
    let o := draw_player allow effLimit ratMap s rng pid (scripts pid)
    drawing_players allow effLimit ratMap scripts o.1 o.2.1
      (upd acc pid (some o.2.2)) rest

/-- `rounds.phase_drawing`. -/
def phase_drawing (s : GameState) (pids : List PlayerId) (rng : List Nat)
    (dec : RoundDecisions) : StepRes :=
  let gray_limit := (s.round_ctx.gray_limit).getD 7
  let ratMap : PlayerId → Int :=
    match s.round_ctx.rat_tails with
    | some f => f
    | none => fun _ => 0
  let allow := s.round_ctx.allow_return_all_from_palm
  let effLimit := apply_blue_draw_rule s gray_limit
  let o := drawing_players allow effLimit ratMap dec.drawScripts s rng
    (fun _ => none) pids
  ⟨{ o.1 with round_ctx :=
      { o.1.round_ctx with drawing_results := some o.2.2 } }, o.2.1, none⟩

/-! ### The other phases -/

/-- `rounds.phase_start`: clear the per-round event pointers (the player
table display `ensure_player`s every listed player). -/
def phase_start (s : GameState) (pids : List PlayerId) (rng : List Nat) :
    StepRes :=
  let s := { s with current_event := none, active_blue_event := none }
  ⟨pids.foldl (fun s pid => ensure_player s pid) s, rng, none⟩

def ev1314_loop (choice : PlayerId → Choice1314) :
    GameState → List PlayerId → GameState × Option Err
  | s, [] => (s, none)
  | s, pid :: rest =>
    match choice pid with
    | Choice1314.droplet =>
      ev1314_loop choice
        (modPlayer s pid (fun p => { p with droplet_pos := p.droplet_pos + 2 }))
        rest
    | Choice1314.purple =>
      match take_any_chip_of_color_from_box_to_bag s pid Color.purple with
      | (s1, some _) => ev1314_loop choice s1 rest
      | (s1, none) => (s1, some Err.valueError)

/-- `rounds._purple_ev12_alms`. -/
def purple_ev12_alms (s : GameState) (pids : List PlayerId) :
    GameState × Option Err :=
  match (pids.map (fun p => (getPlayer s p).rubies)).minimum? with
  | none => (s, some Err.valueError)
  | some minR =>
    let targets := pids.filter (fun p => decide ((getPlayer s p).rubies = minR))
    (targets.foldl
      (fun s p => modPlayer s p (fun ps => { ps with rubies := ps.rubies + 1 }))
      s, none)

/-- `rounds.execute_purple_event_now` with the registered table
`PURPLE_EFFECTS = {EV12, EV13, EV14}`; an unregistered card id falls
back to the manual-resolution stub (no state change). -/
def execute_purple_event_now (s : GameState) (card : EventCard)
    (pids : List PlayerId) (dec : RoundDecisions) : GameState × Option Err :=
  if card.card_id = "EV12" then purple_ev12_alms s pids
  else if card.card_id = "EV13" ∨ card.card_id = "EV14" then
    ev1314_loop dec.purpleChoice s pids
  else (s, none)

/-- `rounds.phase_event_card`. -/
def phase_event_card (s : GameState) (pids : List PlayerId) (rng : List Nat)
    (dec : RoundDecisions) : StepRes :=
  if s.event_deck.isEmpty then ⟨{ s with current_event := none }, rng, none⟩
  else
    let idx := rng.headD 0 % s.event_deck.length
    let card := s.event_deck.getD idx default
    let s := { s with event_deck := s.event_deck.eraseIdx idx
                      current_event := some card
                      event_discard := s.event_discard ++ [card] }
    if card.color = "purple" then
      let o := execute_purple_event_now s card pids dec
      ⟨o.1, rng.tail, o.2⟩
    else if card.color = "blue" then
      ⟨{ s with active_blue_event := some card }, rng.tail, none⟩
    else ⟨s, rng.tail, none⟩

/-- `rounds.phase_rat_tails`: store the validated per-player counts in
the round context (`rat_tails_map.get(pid, 0)` later defaults missing
players to 0). -/
def phase_rat_tails (s : GameState) (pids : List PlayerId) (rng : List Nat)
    (dec : RoundDecisions) : StepRes :=
  let s := pids.foldl (fun s pid => ensure_player s pid) s
  let rt : PlayerId → Int := fun p => if p ∈ pids then (dec.ratTails p : Int)
    else 0
  ⟨{ s with round_ctx := { s.round_ctx with rat_tails := some rt } }, rng, none⟩

def dice_loop : GameState → List Nat → List PlayerId → GameState × List Nat
  | s, rng, [] => (s, rng)
  | s, rng, pid :: rest =>
    let roll := 1 + rng.headD 0 % 6
    let s :=
      if roll = 1 ∨ roll = 2 then
        modPlayer s pid (fun p => { p with victory_points := p.victory_points + 1 })
      else if roll = 3 then
        modPlayer s pid (fun p => { p with victory_points := p.victory_points + 2 })
      else if roll = 4 then
        (take_any_chip_of_color_from_box_to_bag s pid Color.orange).1
      else if roll = 5 then
        modPlayer s pid (fun p => { p with rubies := p.rubies + 1 })
      else
        modPlayer s pid (fun p => { p with droplet_pos := p.droplet_pos + 1 })
    let s := { s with round_ctx := { s.round_ctx with
        dice_results := upd s.round_ctx.dice_results pid (some roll) } }
    dice_loop s rng.tail rest

/-- `rounds.phase_winner_and_dice`: winners are the non-exploded players
of maximal final position (all players as fallback when everyone
exploded); each winner rolls the six-outcome die (the roll-4 supply
grant swallows `SupplyExhausted`). -/
def phase_winner_and_dice (s : GameState) (pids : List PlayerId)
    (rng : List Nat) : StepRes :=
  match s.round_ctx.drawing_results with
  | none => ⟨s, rng, some Err.keyError⟩
  | some res =>
    if pids.any (fun p => (res p).isNone) then ⟨s, rng, some Err.keyError⟩
    else
      let getR := fun p => (res p).getD default
      let eligible := pids.filter (fun p => !(getR p).exploded)
      let eligible := if eligible.isEmpty then pids else eligible
      match (eligible.map (fun p => (getR p).pos_last)).maximum? with
      | none => ⟨s, rng, some Err.valueError⟩
      | some maxPos =>
        let winners := eligible.filter
          (fun p => decide ((getR p).pos_last = maxPos))
        let o := dice_loop s rng winners
        ⟨o.1, o.2, none⟩

def rubies_loop (res : PlayerId → Option DrawResult) :
    GameState → List PlayerId → GameState × Option Err
  | s, [] => (s, none)
  | s, pid :: rest =>
    let s := ensure_player s pid
    match res pid with
    | none => (s, some Err.keyError)
    | some r =>
      let gain : Int := if r.landing_ruby then 1 else 0
      let s := if gain = 0 then s
        else modPlayer s pid (fun p => { p with rubies := p.rubies + gain })
      rubies_loop res s rest

/-- `rounds.phase_rubies`: +1 ruby exactly when the player landed on a
ruby field (the docstring and body apply no event modifiers). -/
def phase_rubies (s : GameState) (pids : List PlayerId) (rng : List Nat) :
    StepRes :=
  match s.round_ctx.drawing_results with
  | none => ⟨s, rng, some Err.keyError⟩
  | some res =>
    let o := rubies_loop res s pids
    ⟨o.1, rng, o.2⟩

def vp_loop (res : PlayerId → Option DrawResult) :
    GameState → List PlayerId → GameState × Option Err
  | s, [] => (s, none)
  | s, pid :: rest =>
    match res pid with
    | none => (s, some Err.keyError)
    | some r =>
      let pr := apply_blue_score_rule s pid r.landing_coins r.landing_vp
        r.landing_ruby
      let s := modPlayer s pid (fun p =>
        { p with coins := p.coins + pr.1,
                 victory_points := p.victory_points + pr.2 })
      vp_loop res s rest

/-- `rounds.phase_vp_and_coins`: landing rewards from the recorded
drawing results, through the blue score rule. -/
def phase_vp_and_coins (s : GameState) (pids : List PlayerId)
    (rng : List Nat) : StepRes :=
  match s.round_ctx.drawing_results with
  | none => ⟨s, rng, some Err.keyError⟩
  | some res =>
    let o := vp_loop res s pids
    ⟨o.1, rng, o.2⟩

def trade_loop : GameState → PlayerId → List TradeChoice → GameState
  | s, _, [] => s
  | s, pid, c :: cs =>
    if (getPlayer s pid).rubies < 2 then s
    else
      match c with
      | TradeChoice.quit => s
      | TradeChoice.droplet =>
        trade_loop (modPlayer s pid (fun p =>
          { p with rubies := p.rubies - 2,
                   droplet_pos := p.droplet_pos + 1 })) pid cs
      | TradeChoice.potion =>
        if (getPlayer s pid).potion_filled then trade_loop s pid cs
        else
          trade_loop (modPlayer s pid (fun p =>
            { p with rubies := p.rubies - 2, potion_filled := true })) pid cs

/-- `rounds.phase_ruby_trade`. -/
def phase_ruby_trade (s : GameState) (pids : List PlayerId) (rng : List Nat)
    (dec : RoundDecisions) : StepRes :=
  ⟨pids.foldl (fun s pid => trade_loop (ensure_player s pid) pid
      (dec.tradeScripts pid)) s, rng, none⟩

/-! ### The driver -/

inductive PhaseId where
  | start | event_card | rat_tails | drawing | winner_and_dice
  | chip_eval | rubies | vp_and_coins | purchase | ruby_trade
deriving DecidableEq, Repr

def ROUND_PHASES : List PhaseId :=
  [PhaseId.start, PhaseId.event_card, PhaseId.rat_tails, PhaseId.drawing,
   PhaseId.winner_and_dice, PhaseId.chip_eval, PhaseId.rubies,
   PhaseId.vp_and_coins, PhaseId.purchase, PhaseId.ruby_trade]

inductive CtxKey where
  | gray_limit | drawing_results
deriving DecidableEq, Repr

def PHASE_REQUIRES : PhaseId → List CtxKey
  | PhaseId.drawing => [CtxKey.gray_limit]
  | PhaseId.winner_and_dice => [CtxKey.drawing_results]
  | PhaseId.rubies => [CtxKey.drawing_results]
  | PhaseId.vp_and_coins => [CtxKey.drawing_results]
  | _ => []

def ctxHas (ctx : RoundCtx) : CtxKey → Bool
  | CtxKey.gray_limit => ctx.gray_limit.isSome
  | CtxKey.drawing_results => ctx.drawing_results.isSome

/-- `PHASE_DISPATCH` (chip-eval and purchase are interactive stubs that
change no state). -/
def runPhase (p : PhaseId) (s : GameState) (pids : List PlayerId)
    (rng : List Nat) (dec : RoundDecisions) : StepRes :=
  match p with
  | PhaseId.start => phase_start s pids rng
  | PhaseId.event_card => phase_event_card s pids rng dec
  | PhaseId.rat_tails => phase_rat_tails s pids rng dec
  | PhaseId.drawing => phase_drawing s pids rng dec
  | PhaseId.winner_and_dice => phase_winner_and_dice s pids rng
  | PhaseId.chip_eval => ⟨s, rng, none⟩
  | PhaseId.rubies => phase_rubies s pids rng
  | PhaseId.vp_and_coins => phase_vp_and_coins s pids rng
  | PhaseId.purchase => ⟨s, rng, none⟩
  | PhaseId.ruby_trade => phase_ruby_trade s pids rng dec

def run_phases (pids : List PlayerId) (dec : RoundDecisions) :
    List PhaseId → GameState → List Nat → StepRes
  | [], s, rng => ⟨s, rng, none⟩
  | p :: rest, s, rng =>
    if (PHASE_REQUIRES p).all (fun k => ctxHas s.round_ctx k) then
      let o := runPhase p s pids rng dec
      match o.err with
      | some e => ⟨o.st, o.rng, some e⟩
      | none => run_phases pids dec rest o.st o.rng
    else ⟨s, rng, some Err.prereqMissing⟩

/-- `rounds.run_round`: clear the round context, set the gray limit,
walk the fixed phase list under the prerequisite checks, and, when every
phase returned normally, run the end-of-round cleanup; a raising phase
propagates its exception and skips the cleanup. -/
def run_round (s : GameState) (pids : List PlayerId) (rng : List Nat)
    (dec : RoundDecisions) (gray_limit : Int := 7) : StepRes :=
  let s := clear_round_ctx s
  let s := { s with round_ctx :=
    { s.round_ctx with gray_limit := some gray_limit } }
  let o := run_phases pids dec ROUND_PHASES s rng
  match o.err with
  | some e => ⟨o.st, o.rng, some e⟩
  | none => ⟨round_cleanup o.st pids, o.rng, none⟩

/-! ## C7 — position monotonicity -/

theorem move_chip_palm_to_pot_ctype (s : GameState) (pid : PlayerId)
    (cid : ChipId) : (move_chip_palm_to_pot s pid cid).1.ctype = s.ctype := by
  by_cases hm : cid ∈ s.palms pid
  · rw [move_chip_palm_to_pot_eq hm]
    dsimp only
    rw [chipMove_ctype, ensure_player_ctype]
  · rw [move_chip_palm_to_pot_of_not_mem hm]
    exact ensure_player_ctype s pid

theorem return_chip_from_pot_to_bag_ctype (s : GameState) (pid : PlayerId)
    (cid : ChipId) : (return_chip_from_pot_to_bag s pid cid).1.ctype = s.ctype := by
  by_cases hm : cid ∈ s.pots pid
  · rw [return_chip_from_pot_to_bag_eq hm]
    dsimp only
    rw [chipMove_ctype, ensure_player_ctype]
  · rw [return_chip_from_pot_to_bag_of_not_mem hm]
    exact ensure_player_ctype s pid

theorem return_all_palm_to_bag_ctype (s : GameState) (pid : PlayerId) :
    (return_all_palm_to_bag s pid).1.ctype = s.ctype := by
  by_cases hp : s.palms pid = []
  · rw [return_all_palm_to_bag_of_empty hp]
    exact ensure_player_ctype s pid
  · rw [return_all_palm_to_bag_eq hp]
    dsimp only
    unfold bulkMove
    rw [locSet_ctype, locSet_ctype]
    exact ensure_player_ctype s pid

theorem draw_from_bag_to_palm_ctype (s : GameState) (pid : PlayerId)
    (r : Nat) : (draw_from_bag_to_palm s pid r).1.ctype = s.ctype := by
  by_cases hb : s.bags pid = []
  · rw [draw_from_bag_to_palm_of_empty hb]
    exact ensure_player_ctype s pid
  · rw [draw_from_bag_to_palm_eq_move r hb]
    dsimp only
    rw [chipMove_ctype, ensure_player_ctype]

theorem draw_n_from_bag_to_palm_ctype (s : GameState) (pid : PlayerId)
    (n : Nat) (rng : List Nat) :
    (draw_n_from_bag_to_palm s pid n rng).1.ctype = s.ctype := by
  induction n generalizing s rng with
  | zero => exact ensure_player_ctype s pid
  | succ n ih =>
    unfold draw_n_from_bag_to_palm
    by_cases hb : ((ensure_player s pid).bags pid).isEmpty
    · simp only [hb, if_true]
      exact ensure_player_ctype s pid
    · simp only [hb, Bool.false_eq_true, if_false]
      cases hd : draw_from_bag_to_palm (ensure_player s pid) pid (rng.headD 0) with
      | mk s1 o =>
        have h1 : s1.ctype = s.ctype := by
          have := draw_from_bag_to_palm_ctype (ensure_player s pid) pid
            (rng.headD 0)
          rw [hd] at this
          rw [this, ensure_player_ctype]
        cases o with
        | some cid =>
          dsimp only
          rw [ih s1 rng.tail, h1]
        | none => exact h1

theorem flushPalm_ctype (s : GameState) (pid : PlayerId) :
    (flushPalm s pid).ctype = s.ctype := by
  unfold flushPalm
  split
  · rfl
  · exact return_all_palm_to_bag_ctype s pid

theorem modPlayer_ctype (s : GameState) (pid : PlayerId)
    (f : PlayerStateTD → PlayerStateTD) : (modPlayer s pid f).ctype = s.ctype :=
  rfl


theorem markEv15_ctype (s : GameState) (pid : PlayerId) :
    (markEv15 s pid).ctype = s.ctype := rfl

theorem setTracker_ctype (s : GameState) (pid : PlayerId) (t : TrackerTD) :
    (setTracker s pid t).ctype = s.ctype := rfl

theorem setTrackerPos_ctype (s : GameState) (pid : PlayerId) (pos : Int) :
    (setTrackerPos s pid pos).ctype = s.ctype := rfl

theorem apply_on_place_effects_ctype (s : GameState) (pid : PlayerId)
    (cid : ChipId) (b : Bool) :
    (apply_on_place_effects s pid cid b).ctype = s.ctype := by
  simp only [apply_on_place_effects]
  rw [ensure_player_ctype]
  cases hcol : (s.ctype cid).color
  all_goals dsimp only
  all_goals (try split_ifs)
  all_goals simp only [return_chip_from_pot_to_bag_ctype, ensure_player_ctype]

theorem effective_placement_step_nonneg {s : GameState} {pid : PlayerId}
    {cid : ChipId} (hv : ∀ c, 0 ≤ (s.ctype c).value) :
    0 ≤ effective_placement_step s pid cid := by
  simp only [effective_placement_step]
  split
  · have h1 := hv cid
    have h2 : (0 : Int) ≤ (count_color_in_pot s pid Color.orange : Int) :=
      Int.natCast_nonneg _
    omega
  · exact hv cid

theorem ev15Offer_ctype (s : GameState) (pid : PlayerId) (placed : ChipId)
    (pc : Color) (b : Bool) :
    (ev15Offer s pid placed pc b).ctype = s.ctype := by
  unfold ev15Offer
  repeat' split
  all_goals simp only [markEv15_ctype, return_chip_from_pot_to_bag_ctype]

theorem placeChip_ctype (effLimit : Int) (pid : PlayerId) (it : DrawIter)
    (placed : ChipId) (s : GameState) (rng : List Nat) (exploded : Bool)
    (pos : Int) :
    (placeChip effLimit pid it placed s rng exploded pos).st.ctype
      = s.ctype := by
  simp only [placeChip]
  repeat' split
  all_goals simp only [flushPalm_ctype, move_chip_palm_to_pot_ctype,
    return_chip_from_pot_to_bag_ctype, return_all_palm_to_bag_ctype,
    apply_on_place_effects_ctype, ev15Offer_ctype, ensure_player_ctype,
    markEv15_ctype, setTracker_ctype, setTrackerPos_ctype, modPlayer_ctype]

theorem placeChip_pos_le {s : GameState} (effLimit : Int) (pid : PlayerId)
    (it : DrawIter) (placed : ChipId) (rng : List Nat) (exploded : Bool)
    (pos : Int) (hv : ∀ c, 0 ≤ (s.ctype c).value) :
    pos ≤ (placeChip effLimit pid it placed s rng exploded pos).pos := by
  simp only [placeChip]
  repeat' split
  all_goals dsimp only
  all_goals
    first
    | exact le_refl _
    | (refine le_add_of_nonneg_right (effective_placement_step_nonneg ?_)
       intro c
       simp only [flushPalm_ctype, move_chip_palm_to_pot_ctype,
         return_chip_from_pot_to_bag_ctype, return_all_palm_to_bag_ctype,
         ev15Offer_ctype, ensure_player_ctype]
       exact hv c)

theorem drawIterStep_ctype (allow : Bool) (effLimit : Int) (pid : PlayerId)
    (it : DrawIter) (s : GameState) (rng : List Nat) (exploded : Bool)
    (pos : Int) :
    (drawIterStep allow effLimit pid it s rng exploded pos).st.ctype
      = s.ctype := by
  simp only [drawIterStep]
  repeat' split
  all_goals simp only [placeChip_ctype, flushPalm_ctype,
    return_all_palm_to_bag_ctype, draw_n_from_bag_to_palm_ctype]

theorem drawIterStep_pos_le {s : GameState} (allow : Bool) (effLimit : Int)
    (pid : PlayerId) (it : DrawIter) (rng : List Nat) (exploded : Bool)
    (pos : Int) (hv : ∀ c, 0 ≤ (s.ctype c).value) :
    pos ≤ (drawIterStep allow effLimit pid it s rng exploded pos).pos := by
  simp only [drawIterStep]
  repeat' split
  all_goals (try dsimp only)
  all_goals
    first
    | exact le_refl _
    | (apply placeChip_pos_le
       intro c
       simp only [draw_n_from_bag_to_palm_ctype]
       exact hv c)

theorem placeChip_pos_yellow_blind (effLimit : Int) (pid : PlayerId)
    (it it' : DrawIter) (placed : ChipId) (s : GameState) (rng : List Nat)
    (exploded : Bool) (pos : Int)
    (hp : it'.usePotion = it.usePotion) (he : it'.ev15Accept = it.ev15Accept) :
    (placeChip effLimit pid it placed s rng exploded pos).pos
      = (placeChip effLimit pid it' placed s rng exploded pos).pos := by
  simp only [placeChip]
  rw [hp, he]
  split
  · rfl
  · rw [apply_ite LoopState.pos, apply_ite LoopState.pos]
    dsimp only
    simp only [ite_self]

/-- C7: within one drawing sequence the position tracker never
decreases: the loop is monotone in `pos_last`, every placement step is
non-negative (given the catalog's non-negative chip values), and the
on-commit yellow-removal decision can change the pot sums but never the
resulting position. -/
theorem C7_position_monotone (s : GameState) (allow : Bool) (effLimit : Int)
    (pid : PlayerId) (rng : List Nat) (exploded : Bool) (pos : Int)
    (script : List DrawDecision)
    (hv : ∀ cid, 0 ≤ (s.ctype cid).value) :
    pos ≤ (drawLoop allow effLimit pid s rng exploded pos script).pos
    ∧ (∀ cid, 0 ≤ effective_placement_step s pid cid)
    ∧ (∀ (it : DrawIter) (placed : ChipId) (b : Bool),
        (placeChip effLimit pid it placed s rng exploded pos).pos
          = (placeChip effLimit pid { it with yellowAccept := b } placed
              s rng exploded pos).pos) := by
  refine ⟨?_, fun cid => effective_placement_step_nonneg hv, ?_⟩
  · induction script generalizing s rng exploded pos with
    | nil => exact le_refl pos
    | cons d ds ih =>
      cases d with
      | stop => exact le_refl pos
      | go it =>
        have h1 : pos ≤ (drawIterStep allow effLimit pid it s rng exploded
            pos).pos := drawIterStep_pos_le allow effLimit pid it rng
              exploded pos hv
        have hct : (drawIterStep allow effLimit pid it s rng exploded
            pos).st.ctype = s.ctype :=
          drawIterStep_ctype allow effLimit pid it s rng exploded pos
        unfold drawLoop
        dsimp only
        split
        · exact h1
        · exact le_trans h1 (ih _ _ _ _ (by rw [hct]; exact hv))
  · intro it placed b
    exact placeChip_pos_yellow_blind effLimit pid it _ placed s rng exploded
      pos rfl rfl

theorem C7_witness :
    (0 : Int) ≤ (drawLoop false 7 0 (build_pool [(Color.gray, [(1, 2)])])
      [0] false 0 []).pos := by
  have hv : ∀ cid, 0 ≤ ((build_pool
      [(Color.gray, [((1 : Int), 2)])]).ctype cid).value := by
    intro cid
    match cid with
    | 0 => decide
    | 1 => decide
    | n + 2 =>
      have hl : (chipSeq [(Color.gray, [((1 : Int), 2)])]).length = 2 := rfl
      show 0 ≤ ((chipSeq [(Color.gray, [((1 : Int), 2)])]).getD (n + 2)
          default).value
      rw [List.getD_eq_default]
      · decide
      · omega
  exact (C7_position_monotone (build_pool [(Color.gray, [(1, 2)])])
    false 7 0 [0] false 0 [] hv).1

/-! ### C4: the explosion boundary -/

theorem pot_sums_flushPalm (s : GameState) (pid q : PlayerId) :
    pot_sums (flushPalm s pid) q = pot_sums s q := by
  have h1 : chipGray (flushPalm s pid) = chipGray s := by
    funext c
    simp only [chipGray, flushPalm_ctype]
  have h2 : chipVal (flushPalm s pid) = chipVal s := by
    funext c
    simp only [chipVal, flushPalm_ctype]
  simp only [pot_sums, graySumL, totalSumL, flushPalm_pots, h1, h2]

/-- The state and position after the non-potion commit path of
`placeChip`, up to (but excluding) the explosion check: palm-to-pot
move, palm flush, tracker advance, EV15 offer, on-place effects. -/
def commitState (pid : PlayerId) (it : DrawIter) (placed : ChipId)
    (s : GameState) (pos : Int) : GameState × Int :=
  let s1 := flushPalm (move_chip_palm_to_pot s pid placed).1 pid
  let pos2 := pos + effective_placement_step s1 pid placed
  (apply_on_place_effects
    (ev15Offer (setTrackerPos s1 pid pos2) pid placed
      ((s1.ctype placed).color) it.ev15Accept) pid placed it.yellowAccept,
   pos2)

theorem placeChip_no_potion {effLimit : Int} {pid : PlayerId}
    {it : DrawIter} {placed : ChipId} {s : GameState} {rng : List Nat}
    {exploded : Bool} {pos : Int} (hp : it.usePotion = false) :
    placeChip effLimit pid it placed s rng exploded pos
      = if (pot_sums (commitState pid it placed s pos).1 pid).1 > effLimit
        then ⟨flushPalm (commitState pid it placed s pos).1 pid, rng, true,
              (commitState pid it placed s pos).2, true⟩
        else ⟨(commitState pid it placed s pos).1, rng, exploded,
              (commitState pid it placed s pos).2, false⟩ := by
  simp only [placeChip, commitState, hp]
  rw [if_neg]
  intro hc
  exact Bool.false_ne_true hc.2.2.2

/-- C4: with no potion undo in play (the only path that skips the
check), the commit marks the player exploded and halts the loop exactly
when the gray sum of the resulting pot strictly exceeds the effective
limit; a gray sum equal to the limit never busts; an exploded result has
an empty palm; and once a loop step halts, the rest of the decision
script is never consulted. -/
theorem C4_explosion_strict (s : GameState) (allow : Bool) (effLimit : Int)
    (pid : PlayerId) (it : DrawIter) (placed : ChipId) (rng : List Nat)
    (pos : Int) (ds ds' : List DrawDecision) (hp : it.usePotion = false) :
    ((placeChip effLimit pid it placed s rng false pos).exploded = true
      ↔ (pot_sums (placeChip effLimit pid it placed s rng false pos).st
          pid).1 > effLimit)
    ∧ (placeChip effLimit pid it placed s rng false pos).halt
        = (placeChip effLimit pid it placed s rng false pos).exploded
    ∧ ((pot_sums (placeChip effLimit pid it placed s rng false pos).st
          pid).1 = effLimit
        → (placeChip effLimit pid it placed s rng false pos).exploded
            = false)
    ∧ ((placeChip effLimit pid it placed s rng false pos).exploded = true
        → (placeChip effLimit pid it placed s rng false pos).st.palms pid
            = [])
    ∧ ((drawIterStep allow effLimit pid it s rng false pos).halt = true
        → drawLoop allow effLimit pid s rng false pos
            (DrawDecision.go it :: ds)
          = drawLoop allow effLimit pid s rng false pos
              (DrawDecision.go it :: ds')) := by
  rw [placeChip_no_potion hp]
  by_cases hgt :
      (pot_sums (commitState pid it placed s pos).1 pid).1 > effLimit
  · rw [if_pos hgt]
    dsimp only
    refine ⟨?_, rfl, ?_, ?_, ?_⟩
    · rw [pot_sums_flushPalm]
      exact iff_of_true rfl hgt
    · rw [pot_sums_flushPalm]
      intro he
      exact absurd (he ▸ hgt) (lt_irrefl _)
    · intro _
      exact flushPalm_own _ _
    · intro hh
      simp only [drawLoop]
      rw [if_pos hh, if_pos hh]
  · rw [if_neg hgt]
    dsimp only
    refine ⟨iff_of_false Bool.false_ne_true hgt, rfl, fun _ => rfl, ?_, ?_⟩
    · intro hx
      exact absurd hx Bool.false_ne_true
    · intro hh
      simp only [drawLoop]
      rw [if_pos hh, if_pos hh]

theorem C4_witness :
    (placeChip 7 0 ⟨1, false, 0, false, false, false⟩ 0
        (build_pool [(Color.gray, [(1, 2)])]) [] false 0).exploded = true
      ↔ (pot_sums (placeChip 7 0 ⟨1, false, 0, false, false, false⟩ 0
          (build_pool [(Color.gray, [(1, 2)])]) [] false 0).st 0).1 > 7 :=
  (C4_explosion_strict (build_pool [(Color.gray, [(1, 2)])]) false 7 0
    ⟨1, false, 0, false, false, false⟩ 0 [] 0 [] [] rfl).1

/-! ### C5: the EV15 one-shot return -/

theorem ev15Offer_active {s : GameState} {pid : PlayerId} {placed : ChipId}
    {card : EventCard} (bb : Bool)
    (hcard : get_active_blue_card s = some card)
    (hid : card.card_id = "EV15")
    (hused : s.round_ctx.ev15_first_white_return_used pid = false) :
    ev15Offer s pid placed Color.gray bb
      = if bb then markEv15 (return_chip_from_pot_to_bag s pid placed).1 pid
        else markEv15 s pid := by
  simp only [ev15Offer, hcard]
  rw [if_pos]
  exact ⟨hid, trivial, hused⟩

/-- C5: when the blue EV15 card is active, the committed chip is gray
and the player's one-shot has not been used, the offer marks the
one-shot used whether accepted or declined; accepting routes the chip
pot→bag (its `where` becomes the player's bag) while declining changes
nothing else; the offer never touches the position trackers, the
commit's resulting position is independent of the EV15 answer, and once
the one-shot is marked used the offer is the identity for the rest of
the round. -/
theorem C5_ev15_one_shot (s : GameState) (pid : PlayerId) (placed : ChipId)
    (card : EventCard) (b : Bool)
    (hcard : get_active_blue_card s = some card)
    (hid : card.card_id = "EV15")
    (hused : s.round_ctx.ev15_first_white_return_used pid = false)
    (hmem : placed ∈ s.pots pid) :
    ((ev15Offer s pid placed Color.gray b).round_ctx.ev15_first_white_return_used pid = true)
    ∧ (ev15Offer s pid placed Color.gray true
        = markEv15 (return_chip_from_pot_to_bag s pid placed).1 pid)
    ∧ (ev15Offer s pid placed Color.gray false = markEv15 s pid)
    ∧ ((ev15Offer s pid placed Color.gray true).wh placed
        = ⟨Zone.bag, some pid⟩)
    ∧ ((ev15Offer s pid placed Color.gray b).round_ctx.draw_trackers
        = s.round_ctx.draw_trackers)
    ∧ (∀ (effLimit : Int) (it : DrawIter) (rng : List Nat)
        (exploded : Bool) (pos : Int) (b' : Bool),
        (placeChip effLimit pid it placed s rng exploded pos).pos
          = (placeChip effLimit pid { it with ev15Accept := b' } placed
              s rng exploded pos).pos)
    ∧ (∀ (s' : GameState) (placed' : ChipId) (pc : Color) (b' : Bool),
        s'.round_ctx.ev15_first_white_return_used pid = true →
        ev15Offer s' pid placed' pc b' = s') := by
  refine ⟨?_, ?_, ?_, ?_, ?_, ?_, ?_⟩
  · rw [ev15Offer_active b hcard hid hused]
    cases b <;> simp [markEv15, upd]
  · rw [ev15Offer_active true hcard hid hused, if_pos rfl]
  · rw [ev15Offer_active false hcard hid hused, if_neg Bool.false_ne_true]
  · rw [ev15Offer_active true hcard hid hused, if_pos rfl]
    simp only [markEv15, return_chip_from_pot_to_bag, ensure_player_pots]
    rw [if_pos hmem]
    simp [upd, ensure_player_wh]
  · rw [ev15Offer_active b hcard hid hused]
    cases b
    · rfl
    · rw [if_pos rfl]
      simp only [markEv15, return_chip_from_pot_to_bag, ensure_player_pots]
      rw [if_pos hmem]
      simp [ensure_player_round_ctx]
  · intro effLimit it rng exploded pos b'
    simp only [placeChip]
    split
    · rfl
    · rw [apply_ite LoopState.pos, apply_ite LoopState.pos]
      dsimp only
      simp only [ite_self]
  · intro s' placed' pc b' hu
    cases hac : get_active_blue_card s' with
    | none => simp only [ev15Offer, hac]
    | some c =>
      simp only [ev15Offer, hac]
      split
      · next hcond =>
        rw [hu] at hcond
        exact absurd hcond.2.2 (by decide)
      · rfl

theorem C5_witness :
    (ev15Offer { build_pool [(Color.gray, [(1, 1)])] with
        active_blue_event := some ⟨"EV15", "blue", none⟩,
        pots := fun q => if q = 0 then [0] else [] } 0 0 Color.gray
        false).round_ctx.ev15_first_white_return_used 0 = true :=
  (C5_ev15_one_shot { build_pool [(Color.gray, [(1, 1)])] with
      active_blue_event := some ⟨"EV15", "blue", none⟩,
      pots := fun q => if q = 0 then [0] else [] } 0 0
    ⟨"EV15", "blue", none⟩ false rfl rfl rfl (by decide)).1

/-! ### C3: the reward phases and the blue overrides -/

theorem getPlayer_ensure_stats (s : GameState) (p q : PlayerId) :
    (getPlayer (ensure_player s p) q).rubies = (getPlayer s q).rubies
    ∧ (getPlayer (ensure_player s p) q).coins = (getPlayer s q).coins
    ∧ (getPlayer (ensure_player s p) q).victory_points
        = (getPlayer s q).victory_points := by
  unfold ensure_player
  cases hp : s.players p
  · by_cases hq : q = p
    · subst hq
      simp [getPlayer, upd, hp, freshPlayer]
      exact ⟨rfl, rfl, rfl⟩
    · simp [getPlayer, upd, hq]
  · exact ⟨rfl, rfl, rfl⟩

theorem getPlayer_modPlayer_same (s : GameState) (p : PlayerId)
    (f : PlayerStateTD → PlayerStateTD) :
    getPlayer (modPlayer s p f) p = f (getPlayer s p) := by
  simp [modPlayer, getPlayer, upd]

theorem getPlayer_modPlayer_other (s : GameState) (p q : PlayerId)
    (f : PlayerStateTD → PlayerStateTD) (hq : q ≠ p) :
    getPlayer (modPlayer s p f) q = getPlayer s q := by
  simp [modPlayer, getPlayer, upd, hq]

theorem ensure_player_players_other (s : GameState) (p q : PlayerId)
    (hq : q ≠ p) : (ensure_player s p).players q = s.players q := by
  unfold ensure_player
  cases s.players p
  · simp [upd, hq]
  · rfl

theorem getPlayer_congr {s t : GameState} {pid : PlayerId}
    (h : t.players pid = s.players pid) : getPlayer t pid = getPlayer s pid := by
  unfold getPlayer
  rw [h]

theorem rubies_loop_frame (res : PlayerId → Option DrawResult)
    (pids : List PlayerId) : ∀ (s : GameState) (pid : PlayerId),
    pid ∉ pids → (rubies_loop res s pids).1.players pid = s.players pid := by
  induction pids with
  | nil => intro s pid _; rfl
  | cons q rest ih =>
    intro s pid hn
    have hq : pid ≠ q := fun h => hn (h ▸ List.mem_cons_self q rest)
    have hrs : pid ∉ rest := fun h => hn (List.mem_cons_of_mem q h)
    cases hres : res q with
    | none =>
      simp only [rubies_loop, hres]
      exact ensure_player_players_other s q pid hq
    | some rq =>
      simp only [rubies_loop, hres]
      rw [ih _ pid hrs]
      by_cases hg : ((if rq.landing_ruby then (1 : Int) else 0) = 0)
      · rw [if_pos hg]
        exact ensure_player_players_other s q pid hq
      · rw [if_neg hg]
        simp only [modPlayer, upd]
        rw [if_neg hq]
        exact ensure_player_players_other s q pid hq

theorem rubies_loop_err (res : PlayerId → Option DrawResult)
    (pids : List PlayerId) : ∀ (s : GameState),
    (∀ q ∈ pids, (res q).isSome) → (rubies_loop res s pids).2 = none := by
  induction pids with
  | nil => intro s _; rfl
  | cons q rest ih =>
    intro s hall
    obtain ⟨rq, hrq⟩ := Option.isSome_iff_exists.mp
      (hall q (List.mem_cons_self q rest))
    simp only [rubies_loop, hrq]
    exact ih _ (fun a ha => hall a (List.mem_cons_of_mem q ha))

theorem rubies_loop_rubies (res : PlayerId → Option DrawResult)
    (pids : List PlayerId) : ∀ (s : GameState) (pid : PlayerId)
    (r : DrawResult), pids.Nodup → pid ∈ pids → res pid = some r →
    (∀ q ∈ pids, (res q).isSome) →
    (getPlayer (rubies_loop res s pids).1 pid).rubies
      = (getPlayer s pid).rubies + (if r.landing_ruby then 1 else 0) := by
  induction pids with
  | nil => intro s pid r _ hmem; exact absurd hmem (List.not_mem_nil pid)
  | cons q rest ih =>
    intro s pid r hnd hmem hr hall
    obtain ⟨rq, hrq⟩ := Option.isSome_iff_exists.mp
      (hall q (List.mem_cons_self q rest))
    simp only [rubies_loop, hrq]
    by_cases hpq : pid = q
    · subst hpq
      have hnr : pid ∉ rest := (List.nodup_cons.mp hnd).1
      have hrr : rq = r := by
        rw [hr] at hrq
        exact (Option.some.inj hrq).symm
      subst hrr
      rw [getPlayer_congr (rubies_loop_frame res rest _ pid hnr)]
      by_cases hg : ((if rq.landing_ruby then (1 : Int) else 0) = 0)
      · rw [if_pos hg, (getPlayer_ensure_stats s pid pid).1, hg]
        simp
      · rw [if_neg hg, getPlayer_modPlayer_same]
        dsimp only
        rw [(getPlayer_ensure_stats s pid pid).1]
    · have hm' : pid ∈ rest := by
        cases List.mem_cons.mp hmem with
        | inl h => exact absurd h hpq
        | inr h => exact h
      rw [ih _ pid r (List.nodup_cons.mp hnd).2 hm' hr
        (fun a ha => hall a (List.mem_cons_of_mem q ha))]
      congr 1
      by_cases hg : ((if rq.landing_ruby then (1 : Int) else 0) = 0)
      · rw [if_pos hg]
        exact (getPlayer_ensure_stats s q pid).1
      · rw [if_neg hg, getPlayer_modPlayer_other _ q pid _ hpq]
        exact (getPlayer_ensure_stats s q pid).1

theorem vp_loop_frame (res : PlayerId → Option DrawResult)
    (pids : List PlayerId) : ∀ (s : GameState) (pid : PlayerId),
    pid ∉ pids → (vp_loop res s pids).1.players pid = s.players pid := by
  induction pids with
  | nil => intro s pid _; rfl
  | cons q rest ih =>
    intro s pid hn
    have hq : pid ≠ q := fun h => hn (h ▸ List.mem_cons_self q rest)
    have hrs : pid ∉ rest := fun h => hn (List.mem_cons_of_mem q h)
    cases hres : res q with
    | none => simp only [vp_loop, hres]
    | some rq =>
      simp only [vp_loop, hres]
      rw [ih _ pid hrs]
      simp only [modPlayer, upd]
      rw [if_neg hq]

theorem vp_loop_err (res : PlayerId → Option DrawResult)
    (pids : List PlayerId) : ∀ (s : GameState),
    (∀ q ∈ pids, (res q).isSome) → (vp_loop res s pids).2 = none := by
  induction pids with
  | nil => intro s _; rfl
  | cons q rest ih =>
    intro s hall
    obtain ⟨rq, hrq⟩ := Option.isSome_iff_exists.mp
      (hall q (List.mem_cons_self q rest))
    simp only [vp_loop, hrq]
    exact ih _ (fun a ha => hall a (List.mem_cons_of_mem q ha))

theorem apply_blue_score_rule_modPlayer (s : GameState) (p : PlayerId)
    (f : PlayerStateTD → PlayerStateTD) (pid : PlayerId) (c v : Int)
    (lr : Bool) :
    apply_blue_score_rule (modPlayer s p f) pid c v lr
      = apply_blue_score_rule s pid c v lr := rfl

theorem vp_loop_stats (res : PlayerId → Option DrawResult)
    (pids : List PlayerId) : ∀ (s : GameState) (pid : PlayerId)
    (r : DrawResult), pids.Nodup → pid ∈ pids → res pid = some r →
    (∀ q ∈ pids, (res q).isSome) →
    (getPlayer (vp_loop res s pids).1 pid).coins
      = (getPlayer s pid).coins
        + (apply_blue_score_rule s pid r.landing_coins r.landing_vp
            r.landing_ruby).1
    ∧ (getPlayer (vp_loop res s pids).1 pid).victory_points
      = (getPlayer s pid).victory_points
        + (apply_blue_score_rule s pid r.landing_coins r.landing_vp
            r.landing_ruby).2 := by
  induction pids with
  | nil => intro s pid r _ hmem; exact absurd hmem (List.not_mem_nil pid)
  | cons q rest ih =>
    intro s pid r hnd hmem hr hall
    obtain ⟨rq, hrq⟩ := Option.isSome_iff_exists.mp
      (hall q (List.mem_cons_self q rest))
    simp only [vp_loop, hrq]
    by_cases hpq : pid = q
    · subst hpq
      have hnr : pid ∉ rest := (List.nodup_cons.mp hnd).1
      have hrr : rq = r := by
        rw [hr] at hrq
        exact (Option.some.inj hrq).symm
      subst hrr
      rw [getPlayer_congr (vp_loop_frame res rest _ pid hnr)]
      rw [getPlayer_modPlayer_same]
      exact ⟨rfl, rfl⟩
    · have hm' : pid ∈ rest := by
        cases List.mem_cons.mp hmem with
        | inl h => exact absurd h hpq
        | inr h => exact h
      have ih' := ih (modPlayer s q (fun p =>
          { p with coins := p.coins + (apply_blue_score_rule s q
              rq.landing_coins rq.landing_vp rq.landing_ruby).1,
                   victory_points := p.victory_points
                     + (apply_blue_score_rule s q rq.landing_coins
                         rq.landing_vp rq.landing_ruby).2 }))
        pid r (List.nodup_cons.mp hnd).2 hm' hr
        (fun a ha => hall a (List.mem_cons_of_mem q ha))
      refine ⟨?_, ?_⟩
      · rw [ih'.1, getPlayer_modPlayer_other _ q pid _ hpq,
          apply_blue_score_rule_modPlayer]
      · rw [ih'.2, getPlayer_modPlayer_other _ q pid _ hpq,
          apply_blue_score_rule_modPlayer]

/-- The concrete situation of the discrepancy: blue EV14 active, one
player, recorded drawing result landing on a ruby field. -/
def C3res : PlayerId → Option DrawResult := fun q =>
  if q = 0 then some ⟨0, 0, 0, 0, 0, 0, false, 0, 0, 0, true⟩ else none

def C3state : GameState :=
  { build_pool [] with
    active_blue_event := some ⟨"EV14", "blue", none⟩,
    players := fun q => if q = 0 then some freshPlayer else none,
    round_ctx := { drawing_results := some C3res } }

/-- Counterexample to C3: with the ruby-modifying blue card EV14 active
and a player who landed on a ruby field, `phase_rubies` awards the base
gain 1 (the player ends with 1 ruby) even though the active override
`apply_blue_rubies_rule` maps that base gain to 2 — the ruby phase never
consults the override. -/
theorem C3_counterexample :
    (getPlayer (phase_rubies C3state [0] []).st 0).rubies = 1
    ∧ apply_blue_rubies_rule C3state 0 1 true = 2
    ∧ (phase_rubies C3state [0] []).err = none := by
  refine ⟨by decide, by decide, rfl⟩

/-- C3 (amended): the reward phases read only the recorded per-player
drawing results.  The score/coins phase applies the blue score override
to the recorded landing rewards, but `phase_rubies` adds exactly
`if landing_ruby then 1 else 0` — the base gain, with no consultation of
`apply_blue_rubies_rule` (\"no event modifiers yet\"), so an active EV14
does not change the awarded rubies. -/
theorem C3_reward_phases (s : GameState) (pids : List PlayerId)
    (rng : List Nat) (res : PlayerId → Option DrawResult) (pid : PlayerId)
    (r : DrawResult) (hnd : pids.Nodup) (hmem : pid ∈ pids)
    (hres : s.round_ctx.drawing_results = some res)
    (hr : res pid = some r)
    (hall : ∀ q ∈ pids, (res q).isSome) :
    (getPlayer (phase_rubies s pids rng).st pid).rubies
      = (getPlayer s pid).rubies + (if r.landing_ruby then 1 else 0)
    ∧ (phase_rubies s pids rng).err = none
    ∧ (getPlayer (phase_vp_and_coins s pids rng).st pid).coins
      = (getPlayer s pid).coins
        + (apply_blue_score_rule s pid r.landing_coins r.landing_vp
            r.landing_ruby).1
    ∧ (getPlayer (phase_vp_and_coins s pids rng).st pid).victory_points
      = (getPlayer s pid).victory_points
        + (apply_blue_score_rule s pid r.landing_coins r.landing_vp
            r.landing_ruby).2
    ∧ (phase_vp_and_coins s pids rng).err = none := by
  simp only [phase_rubies, phase_vp_and_coins, hres]
  exact ⟨rubies_loop_rubies res pids s pid r hnd hmem hr hall,
    rubies_loop_err res pids s hall,
    (vp_loop_stats res pids s pid r hnd hmem hr hall).1,
    (vp_loop_stats res pids s pid r hnd hmem hr hall).2,
    vp_loop_err res pids s hall⟩

theorem C3_witness :
    (getPlayer (phase_rubies C3state [0] []).st 0).rubies
      = (getPlayer C3state 0).rubies
        + (if (⟨0, 0, 0, 0, 0, 0, false, 0, 0, 0, true⟩
            : DrawResult).landing_ruby then 1 else 0) :=
  (C3_reward_phases C3state [0] [] C3res 0
    ⟨0, 0, 0, 0, 0, 0, false, 0, 0, 0, true⟩ (by decide) (by decide) rfl
    (by decide) (by decide)).1

/-! ### C2: when the round cleanup runs -/

/-- The failing-round configuration: the event deck holds the purple
EV13 card, every player answers `purple`, and the supply box is empty,
so the forced purple-chip grant raises `ValueError` inside
`phase_event_card`. -/
def C2state : GameState :=
  { build_pool [] with event_deck := [⟨"EV13", "purple", none⟩] }

def C2dec : RoundDecisions :=
  { purpleChoice := fun _ => Choice1314.purple,
    ratTails := fun _ => 0,
    drawScripts := fun _ => [],
    tradeScripts := fun _ => [] }

/-- Counterexample to C2: a phase handler that terminates the round
abnormally skips `round_cleanup` entirely — the failing `run_round`
propagates the `ValueError` and leaves the active-event pointer
`current_event` still set to the drawn card instead of clearing it
(`run_round` has no `try/finally`; cleanup runs only after all phases
return normally). -/
theorem C2_counterexample :
    (run_round C2state [0] [0] C2dec).err = some Err.valueError
    ∧ (run_round C2state [0] [0] C2dec).st.current_event
        = some ⟨"EV13", "purple", none⟩ := by
  exact ⟨by decide, by decide⟩

/-- C2 (amended): the end-of-round cleanup is guaranteed only for a
round whose phases all returned normally: when `run_round` reports no
error, every listed player's palm and pot have been emptied back into
their bag (bag size grows by exactly the palm and pot sizes) and both
event pointers are cleared.  On an abnormal termination the exception
propagates and the cleanup is skipped. -/
theorem C2_cleanup_on_success (s : GameState) (pids : List PlayerId)
    (rng : List Nat) (dec : RoundDecisions) (pid : PlayerId)
    (hmem : pid ∈ pids)
    (hok : (run_round s pids rng dec).err = none) :
    (run_round s pids rng dec).st.palms pid = []
    ∧ (run_round s pids rng dec).st.pots pid = []
    ∧ (run_round s pids rng dec).st.current_event = none
    ∧ (run_round s pids rng dec).st.active_blue_event = none
    ∧ (∀ t : GameState, ((round_cleanup t pids).bags pid).length
        = (t.bags pid).length + (t.palms pid).length + (t.pots pid).length) := by
  have hbag : ∀ t : GameState, ((round_cleanup t pids).bags pid).length
      = (t.bags pid).length + (t.palms pid).length + (t.pots pid).length := by
    intro t
    exact (foldl_cleanup_spec pids t pid hmem).2.2
  simp only [run_round] at hok ⊢
  split at hok
  · exact absurd hok (by simp)
  · exact ⟨(foldl_cleanup_spec pids _ pid hmem).1,
      (foldl_cleanup_spec pids _ pid hmem).2.1, rfl, rfl, hbag⟩

theorem C2_witness :
    (run_round (build_pool []) [0] [0] C2dec).st.palms 0 = []
    ∧ (run_round (build_pool []) [0] [0] C2dec).st.pots 0 = []
    ∧ (run_round (build_pool []) [0] [0] C2dec).st.current_event = none
    ∧ (run_round (build_pool []) [0] [0] C2dec).st.active_blue_event = none
    ∧ (∀ t : GameState, ((round_cleanup t [0]).bags 0).length
        = (t.bags 0).length + (t.palms 0).length + (t.pots 0).length) :=
  C2_cleanup_on_success (build_pool []) [0] [0] C2dec 0 (by decide)
    (by decide)

end Ququ
